import Mathlib

/-!
# Shallow embedding of the pyChess rules engine

This file embeds the chess engine of `src/game/board.py`, `src/game/piece.py`,
`src/game/colour.py` and `src/game/piece_type.py` into Lean and proves the
frozen specification claims about it.

Modelling conventions:

* Python machine integers are modelled as `Int`.
* A Python expression that raises an exception (`IndexError` on list indexing,
  `KeyError` on a failed dict lookup, `AttributeError` when a method is invoked
  on `None`, `ValueError` in `int(...)`) is modelled as `none` in the `Option`
  monad; all board operations are therefore `Option`-valued and a `none` result
  means "the corresponding Python call raises".
* Python list indexing `l[i]` admits negative indices: `-len l <= i < 0`
  accesses `l[i + len l]`; anything outside `[-len l, len l)` raises.
  `pyGet`/`pySet` reproduce exactly this.
* Python objects are mutable and aliased.  A `Piece` value carries a numeric
  `id` standing for its object identity; the board's `white_king`/`black_king`
  back-references are kept in sync with a moved piece by comparing ids
  (`sync_kings`), which reproduces the aliasing of `piece.set_position` seen
  through `board.white_king`.  The in-place mutation of the board is modelled
  by threading the `Board` value through every operation.
-/

inductive Colour where
  | White : Colour
  | Black : Colour
deriving DecidableEq, Repr

inductive PieceType where
  | NONE : PieceType
  | PAWN : PieceType
  | KNIGHT : PieceType
  | BISHOP : PieceType
  | ROOK : PieceType
  | QUEEN : PieceType
  | KING : PieceType
deriving DecidableEq, Repr

/-- A chess piece: `id` models Python object identity, `file`/`rank` are the
mutable position fields set by `Piece.set_position`. -/
structure Piece where
  id : Nat
  colour : Colour
  pieceType : PieceType
  file : Int
  rank : Int
deriving DecidableEq, Repr

/-- The `Board` object of `board.py`: an 8x8 grid stored rank-major
(`self.board[rank][file]`), plus the FEN-derived state fields. -/
structure Board where
  grid : List (List (Option Piece))
  activeColour : Colour
  castlingRights : String
  enPassantSquare : String
  halfmoveClock : Int
  fullmoveNumber : Int
  whiteKing : Option Piece
  blackKing : Option Piece
  gameActive : Bool
deriving DecidableEq, Repr

/-- Python list read `l[i]` with negative-index wrap; `none` = `IndexError`. -/
def pyGet {α : Type _} (l : List α) (i : Int) : Option α :=
  if 0 ≤ i then l.get? i.toNat
  else if 0 ≤ i + l.length then l.get? (i + l.length).toNat
  else none

/-- Python list write `l[i] = a` with negative-index wrap; `none` = `IndexError`. -/
def pySet {α : Type _} (l : List α) (i : Int) (a : α) : Option (List α) :=
  if 0 ≤ i then
    if i < l.length then some (l.set i.toNat a) else none
  else if 0 ≤ i + l.length then some (l.set (i + l.length).toNat a)
  else none

/-- `Board.get_piece`: `self.board[rank][file]`. -/
def get_piece (b : Board) (file rank : Int) : Option (Option Piece) := do
  let row ← pyGet b.grid rank
  pyGet row file

/-- `Board.set_piece`: `self.board[rank][file] = piece`. -/
def set_piece (b : Board) (file rank : Int) (p : Option Piece) : Option Board := do
  let row ← pyGet b.grid rank
  let row' ← pySet row file p
  let grid' ← pySet b.grid rank row'
  pure { b with grid := grid' }

/-- The king reference consulted by the legality filters:
`board.white_king if colour == Colour.WHITE else board.black_king`. -/
def kingRef (b : Board) (c : Colour) : Option Piece :=
  if c = Colour.White then b.whiteKing else b.blackKing

/-- Update one king back-reference if it aliases the mutated piece `p`
(same object id). -/
def kUpd (o : Option Piece) (p : Piece) : Option Piece :=
  match o with
  | some k => if k.id = p.id then some p else some k
  | none => none

/-- Propagate a mutation of piece `p` (identified by `p.id`) to the aliased
`white_king`/`black_king` back-references, as Python aliasing does. -/
def sync_kings (b : Board) (p : Piece) : Board :=
  { b with whiteKing := kUpd b.whiteKing p, blackKing := kUpd b.blackKing p }

/-- `Board.move_piece`: read the captured piece, write the moving piece at the
destination (its position fields mutated by the subsequent `set_position` are
visible through the grid alias), empty the origin square.  Returns the updated
board, the captured piece and the moved piece (with updated position). -/
def move_piece (b : Board) (p : Piece) (dest : Int × Int) :
    Option (Board × Option Piece × Piece) := do
  let captured ← get_piece b dest.1 dest.2
  let p' : Piece := { p with file := dest.1, rank := dest.2 }
  let b1 ← set_piece b dest.1 dest.2 (some p')
  let b2 ← set_piece b1 p.file p.rank none
  pure (sync_kings b2 p', captured, p')

/-- `Board.undo_move`: put the piece back at `original_position` (position
fields mutated back by `set_position`), restore the captured piece at the
square the piece currently occupies. -/
def undo_move (b : Board) (p : Piece) (orig : Int × Int) (captured : Option Piece) :
    Option (Board × Piece) := do
  let p' : Piece := { p with file := orig.1, rank := orig.2 }
  let b1 ← set_piece b orig.1 orig.2 (some p')
  let b2 ← set_piece b1 p.file p.rank captured
  pure (sync_kings b2 p', p')

/-- `Board.promote_pawn`: remove the pawn, place the new piece at `square`. -/
def promote_pawn (b : Board) (pawn newPiece : Piece) (square : Int × Int) :
    Option (Board × Piece) := do
  let b1 ← set_piece b pawn.file pawn.rank none
  let np : Piece := { newPiece with file := square.1, rank := square.2 }
  let b2 ← set_piece b1 square.1 square.2 (some np)
  pure (sync_kings b2 np, np)

/-- One while-loop of `King.in_check`'s ray casting: walk from `(x, y)` in
direction `(dx, dy)` while on the board; on the first occupant decide whether
it is an opposing piece satisfying `pred` (then the ray reports a threat),
otherwise the ray reports no threat.  `fuel` bounds the loop (8 suffices on an
8-wide board). -/
def rayThreat (b : Board) (k : Piece) (pred : Piece → Bool) :
    Nat → Int → Int → Int → Int → Option Bool
  | 0, _, _, _, _ => some false
  | fuel + 1, x, y, dx, dy =>
    if 0 ≤ x ∧ x < 8 ∧ 0 ≤ y ∧ y < 8 then
      match get_piece b x y with
      | none => none
      | some none => rayThreat b k pred fuel (x + dx) (y + dy) dx dy
      | some (some t) => some (decide (t.colour ≠ k.colour) && pred t)
    else some false

/-- Fold the ray threat test over a list of directions, returning on the first
threat found (matching the early `return True` in `King.in_check`). -/
def anyRayThreat (b : Board) (k : Piece) (pred : Piece → Bool)
    (dirs : List (Int × Int)) : Option Bool :=
  dirs.foldlM
    (fun acc d =>
      if acc then pure true
      else rayThreat b k pred 8 (k.file + d.1) (k.rank + d.2) d.1 d.2)
    false

def diagDirs : List (Int × Int) := [(1, 1), (1, -1), (-1, -1), (-1, 1)]

def orthoDirs : List (Int × Int) := [(1, 0), (0, 1), (-1, 0), (0, -1)]

def knightOffsets : List (Int × Int) :=
  [(1, 2), (2, 1), (2, -1), (1, -2), (-1, -2), (-2, -1), (-2, 1), (-1, 2)]

/-- Knight-offset probe of `King.in_check` (both coordinates bounds-checked). -/
def knightThreat (b : Board) (k : Piece) : Option Bool :=
  knightOffsets.foldlM
    (fun acc d =>
      if acc then pure true
      else
        if 0 ≤ k.file + d.1 ∧ k.file + d.1 < 8 ∧ 0 ≤ k.rank + d.2 ∧ k.rank + d.2 < 8 then do
          let t ← get_piece b (k.file + d.1) (k.rank + d.2)
          pure (match t with
            | some tp =>
              decide (tp.colour ≠ k.colour) && decide (tp.pieceType = PieceType.KNIGHT)
            | none => false)
        else pure acc)
    false

/-- Pawn-attack probe of `King.in_check`.  Note: the guard checks only the
file (`0 <= file + attack < 8`); the rank `k.rank + direction` is passed to
`get_piece` unguarded, exactly as in the source. -/
def pawnThreat (b : Board) (k : Piece) : Option Bool :=
  ([-1, 1] : List Int).foldlM
    (fun acc a =>
      if acc then pure true
      else do
        let d : Int := if k.colour = Colour.White then 1 else -1
        let t ← if 0 ≤ k.file + a ∧ k.file + a < 8 then get_piece b (k.file + a) (k.rank + d)
          else pure (none : Option Piece)
        pure (match t with
          | some tp =>
            decide (tp.colour ≠ k.colour) && decide (tp.pieceType = PieceType.PAWN)
          | none => false))
    false

/-- `King.in_check`: diagonal rays (bishop/queen), orthogonal rays
(rook/queen), knight offsets, pawn attacks, in source order with early
`return True`. -/
def in_check (k : Piece) (b : Board) : Option Bool := do
  let diag ← anyRayThreat b k
    (fun t => decide (t.pieceType = PieceType.BISHOP) || decide (t.pieceType = PieceType.QUEEN))
    diagDirs
  if diag then pure true
  else do
    let ortho ← anyRayThreat b k
      (fun t => decide (t.pieceType = PieceType.ROOK) || decide (t.pieceType = PieceType.QUEEN))
      orthoDirs
    if ortho then pure true
    else do
      let kn ← knightThreat b k
      if kn then pure true
      else pawnThreat b k

/-- The pawn's `direction` local: 1 for White, -1 for Black. -/
def pawnDir (p : Piece) : Int := if p.colour = Colour.White then 1 else -1

/-- One diagonal capture probe of `Pawn.generate_moves`: the file offset is
bounds-checked but the rank `p.rank + d` is passed to `get_piece` unguarded
(Python evaluates `None` for an off-board file); an opposing occupant yields
the capture square. -/
def capProbe (b : Board) (p : Piece) (d a : Int) : Option (List (Int × Int)) :=
  match (if 0 ≤ p.file + a ∧ p.file + a < 8 then get_piece b (p.file + a) (p.rank + d)
      else some none) with
  | none => none
  | some t =>
    some (match t with
      | some tp => if tp.colour ≠ p.colour then [(p.file + a, p.rank + d)] else []
      | none => [])

/-- The forward-move block of `Pawn.generate_moves`: one square forward when
the probed square is empty, plus the two-square advance when
`rank == 1 or rank == 6` (note: irrespective of colour, exactly as in the
source) and the second probed square is empty. -/
def pawnForward (b : Board) (p : Piece) (d : Int) (t1 : Option Piece) :
    Option (List (Int × Int)) :=
  if t1 = none then
    if p.rank = 1 ∨ p.rank = 6 then
      match get_piece b p.file (p.rank + 2 * d) with
      | none => none
      | some t2 =>
        some (if t2 = none then [(p.file, p.rank + d), (p.file, p.rank + 2 * d)]
          else [(p.file, p.rank + d)])
    else some [(p.file, p.rank + d)]
  else some []

/-- The pseudo-legal move list built by `Pawn.generate_moves` before the
legality filters: the forward block, then the two diagonal capture probes. -/
def pawn_pseudo_moves (b : Board) (p : Piece) : Option (List (Int × Int)) := do
  let t1 ← get_piece b p.file (p.rank + pawnDir p)
  let fwd ← pawnForward b p (pawnDir p) t1
  let cl ← capProbe b p (pawnDir p) (-1)
  let cr ← capProbe b p (pawnDir p) 1
  pure (fwd ++ (cl ++ cr))

/-- The body shared by the offset-probing generators (`Knight.generate_moves`
and `King.generate_moves`): if the offset square is on the board and empty or
opposing, append it. -/
def offsetStep (b : Board) (p : Piece) (acc : List (Int × Int)) (d : Int × Int) :
    Option (List (Int × Int)) :=
  if 0 ≤ p.file + d.1 ∧ p.file + d.1 < 8 ∧ 0 ≤ p.rank + d.2 ∧ p.rank + d.2 < 8 then do
    let t ← get_piece b (p.file + d.1) (p.rank + d.2)
    pure (match t with
      | none => acc ++ [(p.file + d.1, p.rank + d.2)]
      | some tp =>
        if tp.colour ≠ p.colour then acc ++ [(p.file + d.1, p.rank + d.2)] else acc)
  else pure acc

/-- The pseudo-legal move list of `Knight.generate_moves`: the 8 offsets,
both coordinates bounds-checked, landing on empty or opposing squares. -/
def knight_pseudo_moves (b : Board) (p : Piece) : Option (List (Int × Int)) :=
  knightOffsets.foldlM (offsetStep b p) []

/-- One sliding ray of `Bishop.generate_moves`/`Rook.generate_moves`: collect
empty squares, include a blocking opposing piece, stop at an own piece. -/
def slideRay (b : Board) (p : Piece) :
    Nat → Int → Int → Int → Int → Option (List (Int × Int))
  | 0, _, _, _, _ => some []
  | fuel + 1, x, y, dx, dy =>
    if 0 ≤ x ∧ x < 8 ∧ 0 ≤ y ∧ y < 8 then
      match get_piece b x y with
      | none => none
      | some none => do
        let rest ← slideRay b p fuel (x + dx) (y + dy) dx dy
        pure ((x, y) :: rest)
      | some (some tp) => if tp.colour ≠ p.colour then some [(x, y)] else some []
    else some []

/-- The pseudo-legal move list of the sliding pieces over a direction set. -/
def slide_pseudo_moves (b : Board) (p : Piece) (dirs : List (Int × Int)) :
    Option (List (Int × Int)) :=
  dirs.foldlM
    (fun acc d => do
      let ray ← slideRay b p 8 (p.file + d.1) (p.rank + d.2) d.1 d.2
      pure (acc ++ ray))
    []

def bishop_pseudo_moves (b : Board) (p : Piece) : Option (List (Int × Int)) :=
  slide_pseudo_moves b p diagDirs

def rook_pseudo_moves (b : Board) (p : Piece) : Option (List (Int × Int)) :=
  slide_pseudo_moves b p orthoDirs

def kingOffsets : List (Int × Int) :=
  [(-1, -1), (-1, 0), (-1, 1), (0, -1), (0, 1), (1, -1), (1, 0), (1, 1)]

/-- The pseudo-legal move list of `King.generate_moves`: the 8 adjacent
squares (dx outer loop, dy inner, skipping (0,0)), both coordinates
bounds-checked, landing on empty or opposing squares. -/
def king_pseudo_moves (b : Board) (p : Piece) : Option (List (Int × Int)) :=
  kingOffsets.foldlM (offsetStep b p) []

/-- `Piece.filter_self_check_moves`: for each candidate move, simulate it with
`board.move_piece`, fetch the friendly king through the board's (aliased)
back-reference, test `king.in_check`, keep the move if the king is not in
check, and revert with `board.undo_move`.  The board and the moving piece are
threaded through the iterations, modelling the in-place mutation.  The loop
body of `Piece.filter_in_check_moves` (lines 146-153 of piece.py) is
identical, so `filter_in_check_moves` below reuses this definition. -/
def filter_self_check_moves :
    Board → Piece → List (Int × Int) → Option (List (Int × Int) × Board × Piece)
  | b, p, [] => some ([], b, p)
  | b, p, m :: rest => do
    let orig := (p.file, p.rank)
    let (b1, captured, p1) ← move_piece b p m
    let king ← kingRef b1 p1.colour
    let c ← in_check king b1
    let (b2, p2) ← undo_move b1 p1 orig captured
    let (res, b3, p3) ← filter_self_check_moves b2 p2 rest
    pure ((if c then res else m :: res), b3, p3)

/-- `Piece.filter_in_check_moves`: if the friendly king is not currently in
check, return the input unchanged; otherwise run the same
simulate-test-revert loop as `filter_self_check_moves`. -/
def filter_in_check_moves (b : Board) (p : Piece) (moves : List (Int × Int)) :
    Option (List (Int × Int) × Board × Piece) := do
  let king ← kingRef b p.colour
  let c ← in_check king b
  if c then filter_self_check_moves b p moves
  else pure (moves, b, p)

/-- The shared shape of `generate_moves` for Pawn/Knight/Bishop/Rook/King:
pseudo-legal generation, then `filter_self_check_moves`, then
`filter_in_check_moves`. -/
def genPipeline (pseudo : Board → Piece → Option (List (Int × Int)))
    (b : Board) (p : Piece) : Option (List (Int × Int) × Board × Piece) := do
  let ms ← pseudo b p
  let (ms1, b1, p1) ← filter_self_check_moves b p ms
  filter_in_check_moves b1 p1 ms1

def pawn_generate_moves : Board → Piece → Option (List (Int × Int) × Board × Piece) :=
  genPipeline pawn_pseudo_moves

def knight_generate_moves : Board → Piece → Option (List (Int × Int) × Board × Piece) :=
  genPipeline knight_pseudo_moves

def bishop_generate_moves : Board → Piece → Option (List (Int × Int) × Board × Piece) :=
  genPipeline bishop_pseudo_moves

def rook_generate_moves : Board → Piece → Option (List (Int × Int) × Board × Piece) :=
  genPipeline rook_pseudo_moves

def king_generate_moves : Board → Piece → Option (List (Int × Int) × Board × Piece) :=
  genPipeline king_pseudo_moves

/-- `Queen.generate_moves`: `Rook.generate_moves(self, board)` then
`Bishop.generate_moves(self, board)` (each running both filters), concatenate,
then a final `filter_self_check_moves` only. -/
def queen_generate_moves (b : Board) (p : Piece) :
    Option (List (Int × Int) × Board × Piece) := do
  let (rookMoves, b1, p1) ← rook_generate_moves b p
  let (bishopMoves, b2, p2) ← bishop_generate_moves b1 p1
  filter_self_check_moves b2 p2 (rookMoves ++ bishopMoves)

/-- Dynamic dispatch of `piece.generate_moves(board)` over the piece type.
The base class raises `NotImplementedError` (type `NONE`). -/
def generate_moves (b : Board) (p : Piece) :
    Option (List (Int × Int) × Board × Piece) :=
  match p.pieceType with
  | PieceType.PAWN => pawn_generate_moves b p
  | PieceType.KNIGHT => knight_generate_moves b p
  | PieceType.BISHOP => bishop_generate_moves b p
  | PieceType.ROOK => rook_generate_moves b p
  | PieceType.QUEEN => queen_generate_moves b p
  | PieceType.KING => king_generate_moves b p
  | PieceType.NONE => none

/-- The simulate-and-test step shared by both filters: move the piece, fetch
the friendly king, evaluate `in_check` on the resulting position. -/
def simTest (b : Board) (p : Piece) (m : Int × Int) : Option Bool := do
  let (b1, _, p1) ← move_piece b p m
  let king ← kingRef b1 p1.colour
  in_check king b1

/-- The pseudo-legal candidate list of each piece kind (the list each
`generate_moves` builds before the legality filters; for the Queen, the
union of the rook and bishop rays). -/
def candidate_squares (b : Board) (p : Piece) : Option (List (Int × Int)) :=
  match p.pieceType with
  | PieceType.PAWN => pawn_pseudo_moves b p
  | PieceType.KNIGHT => knight_pseudo_moves b p
  | PieceType.BISHOP => bishop_pseudo_moves b p
  | PieceType.ROOK => rook_pseudo_moves b p
  | PieceType.QUEEN => do
    let r ← rook_pseudo_moves b p
    let bi ← bishop_pseudo_moves b p
    pure (r ++ bi)
  | PieceType.KING => king_pseudo_moves b p
  | PieceType.NONE => none

/-- The cell visit order of the scans in `Board.is_king_in_checkmate`,
`Board.is_stalemate` and `Board.find_king`: rank 0..7 outer, file 0..7 inner,
as `(file, rank)` pairs. -/
def scanCells : List (Int × Int) :=
  (List.range 8).flatMap (fun r => (List.range 8).map fun f => ((f : Int), (r : Int)))

/-- The shared scan loop of `Board.is_king_in_checkmate` and
`Board.is_stalemate`: walk the cells; for each piece of colour `c` generate
its moves (threading the board, which the filters mutate and restore); a
non-empty move list short-circuits with `false`; an exhausted scan yields
`true`. -/
def noMovesScan : Board → Colour → List (Int × Int) → Option (Bool × Board)
  | b, _, [] => some (true, b)
  | b, c, (f, r) :: rest => do
    let t ← get_piece b f r
    match t with
    | some piece =>
      if piece.colour = c then do
        let (moves, b1, _) ← generate_moves b piece
        if moves = [] then noMovesScan b1 c rest else pure (false, b1)
      else noMovesScan b c rest
    | none => noMovesScan b c rest

/-- `Board.is_king_in_checkmate(king)`: true iff no piece of the king's colour
has any legal move.  Note: it never tests whether the king is attacked. -/
def is_king_in_checkmate (b : Board) (king : Piece) : Option Bool :=
  (noMovesScan b king.colour scanCells).map (·.1)

/-- `Board.is_stalemate()`: true iff no piece of the active colour has any
legal move. -/
def is_stalemate (b : Board) : Option Bool :=
  (noMovesScan b b.activeColour scanCells).map (·.1)

/-- `Board.check_for_draw()`: 50-move rule, else stalemate (the
`self.game_active` conjunct is read after `is_stalemate()` has run). -/
def check_for_draw (b : Board) : Option Board :=
  if b.halfmoveClock ≥ 100 then some { b with gameActive := false }
  else do
    let (st, b1) ← noMovesScan b b.activeColour scanCells
    if st ∧ b1.gameActive then pure { b1 with gameActive := false } else pure b1

/-- `Board.update_game_state()`: flip the active colour, increment the
fullmove number when it becomes White's turn, always increment the halfmove
clock, then evaluate the draw conditions. -/
def update_game_state (b : Board) : Option Board :=
  let ac := if b.activeColour = Colour.Black then Colour.White else Colour.Black
  let fm := if ac = Colour.White then b.fullmoveNumber + 1 else b.fullmoveNumber
  check_for_draw
    { b with activeColour := ac, fullmoveNumber := fm, halfmoveClock := b.halfmoveClock + 1 }

/-- The `fen_to_class` dictionary keyed by the lowercased character; a missing
key is a `KeyError` (`none`). -/
def fen_to_class (c : Char) : Option PieceType :=
  if c = 'p' then some PieceType.PAWN
  else if c = 'n' then some PieceType.KNIGHT
  else if c = 'b' then some PieceType.BISHOP
  else if c = 'r' then some PieceType.ROOK
  else if c = 'q' then some PieceType.QUEEN
  else if c = 'k' then some PieceType.KING
  else none

/-- One character step of `Board.load_fen`, carrying `(board, file, rank)` and
the allocation counter for fresh object ids.  A `'/'` resets the file and
decrements the rank; a digit advances the file; any other character is looked
up in `fen_to_class` (lowercased), a piece is created (uppercase = White) and
placed with `set_piece`. -/
def loadStep (st : Board × Int × Int × Nat) (c : Char) : Option (Board × Int × Int × Nat) :=
  let (b, f, r, n) := st
  if c = '/' then some (b, 0, r - 1, n)
  else if c.isDigit then some (b, f + ((c.toNat : Int) - 48), r, n)
  else do
    let pt ← fen_to_class c.toLower
    let colour := if c.isUpper then Colour.White else Colour.Black
    let piece : Piece := { id := n, colour := colour, pieceType := pt, file := f, rank := r }
    let b' ← set_piece b f r (some piece)
    some (b', f + 1, r, n + 1)

/-- `Board.load_fen`: fold the placement string from `(file, rank) = (0, 7)`.
Note there is no validation that a rank sums to 8 files. -/
def load_fen (b : Board) (s : String) : Option Board :=
  (s.data.foldlM loadStep (b, 0, 7, 0)).map (·.1)

/-- `Board.find_king`: scan rank 0..7, file 0..7 for the first king of the
given colour; returns `none` (Python `None`) without error if absent. -/
def findKingScan : Board → Colour → List (Int × Int) → Option (Option Piece)
  | _, _, [] => some none
  | b, c, (f, r) :: rest => do
    let t ← get_piece b f r
    match t with
    | some p =>
      if p.colour = c ∧ p.pieceType = PieceType.KING then pure (some p)
      else findKingScan b c rest
    | none => findKingScan b c rest

def find_king (b : Board) (c : Colour) : Option (Option Piece) :=
  findKingScan b c scanCells

/-- Python `str.split()` with no argument: split on whitespace runs,
discarding empty fields (structurally recursive so it reduces in the
kernel; `acc` carries the current token reversed). -/
def splitWsAux : List Char → List Char → List String
  | [], acc => if acc = [] then [] else [String.mk acc.reverse]
  | c :: cs, acc =>
    if c.isWhitespace then
      if acc = [] then splitWsAux cs []
      else String.mk acc.reverse :: splitWsAux cs []
    else splitWsAux cs (c :: acc)

def pySplit (s : String) : List String := splitWsAux s.data []

/-- Digit-string value, `none` when empty or containing a non-digit. -/
def digitsToNat : List Char → Option Nat
  | [] => none
  | l =>
    l.foldlM (fun acc c => if c.isDigit then some (acc * 10 + (c.toNat - 48)) else none) 0

/-- Python `int(str)` restricted to the forms the engine meets: an optional
leading minus sign followed by decimal digits; anything else raises
`ValueError` (`none`). -/
def pyInt (s : String) : Option Int :=
  match s.data with
  | '-' :: rest => (digitsToNat rest).map (fun n => -(n : Int))
  | l => (digitsToNat l).map (fun n => (n : Int))

/-- The board freshly constructed by `Board.__init__` before `parse_fen`
runs: an 8x8 grid of `None`, `game_active = True`.  The scalar fields are
Python `None` at this point; they are given placeholder values here and are
only observable after `parse_fen` has overwritten them. -/
def emptyBoard : Board :=
  { grid := List.replicate 8 (List.replicate 8 none)
    activeColour := Colour.White
    castlingRights := ""
    enPassantSquare := ""
    halfmoveClock := 0
    fullmoveNumber := 0
    whiteKing := none
    blackKing := none
    gameActive := true }

/-- `Board.parse_fen` as run by `Board.__init__`: split the FEN, load the
placement (`parts[0]`), read the active colour (`'w'` = White, anything else
= Black), castling rights, en passant square, the two clocks (`int(...)`,
`ValueError` = `none`), then locate both kings (which may be absent without
error).  Any `IndexError`/`KeyError`/`ValueError` on the way is `none`: the
constructor raises and no board is produced. -/
def parse_fen (fen : String) : Option Board := do
  let parts := pySplit fen
  let placement ← pyGet parts 0
  let b1 ← load_fen emptyBoard placement
  let colourField ← pyGet parts 1
  let ac := if colourField = "w" then Colour.White else Colour.Black
  let cr ← pyGet parts 2
  let ep ← pyGet parts 3
  let hmField ← pyGet parts 4
  let hm ← pyInt hmField
  let fmField ← pyGet parts 5
  let fm ← pyInt fmField
  let b2 : Board :=
    { b1 with
      activeColour := ac
      castlingRights := cr
      enPassantSquare := ep
      halfmoveClock := hm
      fullmoveNumber := fm }
  let wk ← find_king b2 Colour.White
  let bk ← find_king b2 Colour.Black
  pure { b2 with whiteKing := wk, blackKing := bk }

/-- Helper for building concrete test positions: place each piece at its
recorded square on the fresh board (all test pieces are placed in bounds, so
the `set_piece` calls succeed and the fallback branch is never taken). -/
def placePieces (ps : List Piece) : Board :=
  ps.foldl
    (fun b p => match set_piece b p.file p.rank (some p) with
      | some b' => b'
      | none => b)
    emptyBoard

/-! ## Concrete test positions -/

/-- White rook a1, White king e1, Black king e8 (rook endgame). -/
def wRookA1 : Piece :=
  { id := 1, colour := Colour.White, pieceType := PieceType.ROOK, file := 0, rank := 0 }

def wKingE1 : Piece :=
  { id := 2, colour := Colour.White, pieceType := PieceType.KING, file := 4, rank := 0 }

def bKingE8 : Piece :=
  { id := 3, colour := Colour.Black, pieceType := PieceType.KING, file := 4, rank := 7 }

def posRookEndgame : Board :=
  { placePieces [wRookA1, wKingE1, bKingE8] with
    whiteKing := some wKingE1, blackKing := some bKingE8 }

/-- Stalemate: Black king a8, White queen c7, White king h1, Black to move.
The black king is not attacked but has no legal move. -/
def stKingB : Piece :=
  { id := 1, colour := Colour.Black, pieceType := PieceType.KING, file := 0, rank := 7 }

def stQueenW : Piece :=
  { id := 2, colour := Colour.White, pieceType := PieceType.QUEEN, file := 2, rank := 6 }

def stKingW : Piece :=
  { id := 3, colour := Colour.White, pieceType := PieceType.KING, file := 7, rank := 0 }

def posStalemate : Board :=
  { placePieces [stKingB, stQueenW, stKingW] with
    whiteKing := some stKingW, blackKing := some stKingB, activeColour := Colour.Black }

/-- Back-rank mate: Black king a8, White rooks a1 and b1, White king h1. -/
def cmKingB : Piece :=
  { id := 1, colour := Colour.Black, pieceType := PieceType.KING, file := 0, rank := 7 }

def cmRookA : Piece :=
  { id := 2, colour := Colour.White, pieceType := PieceType.ROOK, file := 0, rank := 0 }

def cmRookB : Piece :=
  { id := 3, colour := Colour.White, pieceType := PieceType.ROOK, file := 1, rank := 0 }

def cmKingW : Piece :=
  { id := 4, colour := Colour.White, pieceType := PieceType.KING, file := 7, rank := 0 }

def posBackRankMate : Board :=
  { placePieces [cmKingB, cmRookA, cmRookB, cmKingW] with
    whiteKing := some cmKingW, blackKing := some cmKingB, activeColour := Colour.Black }

/-- White pawn a2, White king e1, Black king e8; White to move,
halfmove clock 5.  Used for the halfmove-clock claim. -/
def hmPawnW : Piece :=
  { id := 1, colour := Colour.White, pieceType := PieceType.PAWN, file := 0, rank := 1 }

def hmKingW : Piece :=
  { id := 2, colour := Colour.White, pieceType := PieceType.KING, file := 4, rank := 0 }

def hmKingB : Piece :=
  { id := 3, colour := Colour.Black, pieceType := PieceType.KING, file := 4, rank := 7 }

def posPawnClock : Board :=
  { placePieces [hmPawnW, hmKingW, hmKingB] with
    whiteKing := some hmKingW, blackKing := some hmKingB,
    activeColour := Colour.White, halfmoveClock := 5, fullmoveNumber := 1 }

/-- The same position with the game already over. -/
def posPawnClockOver : Board := { posPawnClock with gameActive := false }

/-- A lone black pawn on a2 (file 0, rank 1). -/
def bPawnA2 : Piece :=
  { id := 1, colour := Colour.Black, pieceType := PieceType.PAWN, file := 0, rank := 1 }

def posBlackPawnA2 : Board := placePieces [bPawnA2]

/-- White king e8 (rank 7), Black king e1 (rank 0). -/
def wKingE8 : Piece :=
  { id := 1, colour := Colour.White, pieceType := PieceType.KING, file := 4, rank := 7 }

def bKingE1 : Piece :=
  { id := 2, colour := Colour.Black, pieceType := PieceType.KING, file := 4, rank := 0 }

def posKingsRank7 : Board :=
  { placePieces [wKingE8, bKingE1] with
    whiteKing := some wKingE8, blackKing := some bKingE1 }

/-- White pawn d8 (rank 7), Black king e1 (rank 0), White king g5: the
pawn probe of `in_check` for the black king wraps rank -1 to rank 7. -/
def wrapPawnW : Piece :=
  { id := 1, colour := Colour.White, pieceType := PieceType.PAWN, file := 3, rank := 7 }

def wrapKingB : Piece :=
  { id := 2, colour := Colour.Black, pieceType := PieceType.KING, file := 4, rank := 0 }

def wrapKingW : Piece :=
  { id := 3, colour := Colour.White, pieceType := PieceType.KING, file := 6, rank := 4 }

def posPawnWrap : Board :=
  { placePieces [wrapPawnW, wrapKingB, wrapKingW] with
    whiteKing := some wrapKingW, blackKing := some wrapKingB }

/-- "Zero legal moves for colour `c`": every piece of colour `c` on the grid
has an empty `generate_moves` result (with the board restored, as the
in-place Python loop observed it). -/
def noMovesFor (b : Board) (c : Colour) : Prop :=
  ∀ m ∈ scanCells, ∀ pc : Piece, get_piece b m.1 m.2 = some (some pc) →
    pc.colour = c → generate_moves b pc = some ([], b, pc)

instance (b : Board) (c : Colour) : Decidable (noMovesFor b c) := by
  unfold noMovesFor
  haveI hinst : ∀ m : Int × Int, Decidable (∀ pc : Piece,
      get_piece b m.1 m.2 = some (some pc) →
      pc.colour = c → generate_moves b pc = some ([], b, pc)) := by
    intro m
    match h : get_piece b m.1 m.2 with
    | none =>
      exact isTrue (by intro pc hpc; cases hpc)
    | some none =>
      exact isTrue (by intro pc hpc; simp at hpc)
    | some (some q) =>
      by_cases hq : q.colour = c → generate_moves b q = some ([], b, q)
      · exact isTrue (by
          intro pc hpc
          simp only [Option.some.injEq] at hpc
          rw [← hpc]
          exact hq)
      · exact isFalse (fun hall => hq (hall q rfl))
  exact List.decidableBAll _ scanCells

/-- The non-grid, non-king fields of the board (turn, clocks, flags): the
move machinery never touches them. -/
def sameScalars (b' b : Board) : Prop :=
  b'.activeColour = b.activeColour ∧ b'.castlingRights = b.castlingRights ∧
  b'.enPassantSquare = b.enPassantSquare ∧ b'.halfmoveClock = b.halfmoveClock ∧
  b'.fullmoveNumber = b.fullmoveNumber ∧ b'.gameActive = b.gameActive

/-! ## Well-formedness and index infrastructure -/

/-- A square with both coordinates on the 8x8 board. -/
def SqOk (m : Int × Int) : Prop := 0 ≤ m.1 ∧ m.1 < 8 ∧ 0 ≤ m.2 ∧ m.2 < 8

instance (m : Int × Int) : Decidable (SqOk m) := by
  unfold SqOk
  infer_instance

/-- The grid shape invariant established by `Board.__init__`: 8 ranks of 8
files. -/
def WF8 (b : Board) : Prop := b.grid.length = 8 ∧ ∀ row ∈ b.grid, row.length = 8

instance (b : Board) : Decidable (WF8 b) := by
  unfold WF8
  infer_instance

/-- The value `Piece.set_position` leaves in the moving piece. -/
def movedTo (p : Piece) (m : Int × Int) : Piece := { p with file := m.1, rank := m.2 }

/-- In Python the king back-references are aliases into the object graph: if
one of them has the same identity as `p` it is the very same object, hence
equal.  `AliasOk` states this for a value-level board. -/
def AliasOk (b : Board) (p : Piece) : Prop :=
  (∀ k, b.whiteKing = some k → k.id = p.id → k = p) ∧
  (∀ k, b.blackKing = some k → k.id = p.id → k = p)

instance (b : Board) (p : Piece) : Decidable (AliasOk b p) := by
  unfold AliasOk
  have : ∀ o : Option Piece, Decidable (∀ k, o = some k → k.id = p.id → k = p) := by
    intro o
    match o with
    | none => exact isTrue (by simp)
    | some k0 =>
      by_cases h : k0.id = p.id → k0 = p
      · exact isTrue (by intro k hk; cases hk; exact fun hid => h hid)
      · exact isFalse (by intro hall; exact h (hall k0 rfl))
  exact instDecidableAnd

theorem pyGet_nonneg {α : Type _} (l : List α) (i : Int) (h : 0 ≤ i) :
    pyGet l i = l.get? i.toNat := by
  unfold pyGet
  rw [if_pos h]

theorem pySet_eq {α : Type _} (l : List α) (i : Int) (a : α) (h0 : 0 ≤ i)
    (h1 : i < l.length) : pySet l i a = some (l.set i.toNat a) := by
  unfold pySet
  rw [if_pos h0, if_pos h1]

theorem get_piece_some (b : Board) (f r : Int) (hb : WF8 b) (hsq : SqOk (f, r)) :
    ∃ t, get_piece b f r = some t := by
  obtain ⟨hlen, hrows⟩ := hb
  obtain ⟨h0f, h1f, h0r, h1r⟩ := hsq
  have hrN : r.toNat < b.grid.length := by omega
  have hrow : b.grid.get? r.toNat = some (b.grid.get ⟨r.toNat, hrN⟩) := List.get?_eq_get hrN
  have hrowlen : (b.grid.get ⟨r.toNat, hrN⟩).length = 8 :=
    hrows _ (List.get_mem b.grid r.toNat hrN)
  have hfN : f.toNat < (b.grid.get ⟨r.toNat, hrN⟩).length := by omega
  refine ⟨(b.grid.get ⟨r.toNat, hrN⟩).get ⟨f.toNat, hfN⟩, ?_⟩
  unfold get_piece
  rw [pyGet_nonneg _ _ h0r, hrow]
  simpa using by rw [pyGet_nonneg _ _ h0f]; exact List.get?_eq_get hfN

/-- Full characterization of a successful `set_piece` on a well-formed board:
it succeeds, preserves well-formedness and every non-grid field, writes `v` at
`(f, r)` and leaves every other square unchanged. -/
theorem set_piece_spec (b : Board) (f r : Int) (v : Option Piece) (hb : WF8 b)
    (hsq : SqOk (f, r)) :
    ∃ b', set_piece b f r v = some b' ∧ WF8 b' ∧
      b'.activeColour = b.activeColour ∧ b'.castlingRights = b.castlingRights ∧
      b'.enPassantSquare = b.enPassantSquare ∧ b'.halfmoveClock = b.halfmoveClock ∧
      b'.fullmoveNumber = b.fullmoveNumber ∧ b'.whiteKing = b.whiteKing ∧
      b'.blackKing = b.blackKing ∧ b'.gameActive = b.gameActive ∧
      get_piece b' f r = some v ∧
      ∀ f' r', SqOk (f', r') → ¬(f' = f ∧ r' = r) →
        get_piece b' f' r' = get_piece b f' r' := by
  obtain ⟨hlen, hrows⟩ := hb
  obtain ⟨h0f, h1f, h0r, h1r⟩ := hsq
  have hrN : r.toNat < b.grid.length := by omega
  set row : List (Option Piece) := b.grid.get ⟨r.toNat, hrN⟩ with hrowdef
  have hrow : b.grid.get? r.toNat = some row := List.get?_eq_get hrN
  have hrowlen : row.length = 8 := hrows _ (List.get_mem b.grid r.toNat hrN)
  have hfN : (f : Int) < (row.length : Int) := by omega
  set row' : List (Option Piece) := row.set f.toNat v with hrowdef'
  set grid' : List (List (Option Piece)) := b.grid.set r.toNat row' with hgriddef
  have hset : set_piece b f r v = some { b with grid := grid' } := by
    unfold set_piece
    rw [pyGet_nonneg _ _ h0r, hrow]
    simp only [Option.bind_eq_bind, Option.some_bind]
    rw [pySet_eq row f v h0f hfN]
    simp only [Option.some_bind]
    rw [pySet_eq b.grid r row' h0r (by omega)]
    rfl
  refine ⟨{ b with grid := grid' }, hset, ?_, rfl, rfl, rfl, rfl, rfl, rfl, rfl, rfl, ?_, ?_⟩
  · constructor
    · simpa [hgriddef] using hlen
    · intro row'' hmem
      rcases List.mem_or_eq_of_mem_set hmem with h | h
      · exact hrows _ h
      · rw [h, hrowdef']
        simpa using hrowlen
  · unfold get_piece
    rw [pyGet_nonneg _ _ h0r]
    show (grid'.get? r.toNat).bind _ = _
    rw [hgriddef, List.get?_set_eq_of_lt _ (by omega)]
    simp only [Option.some_bind]
    rw [pyGet_nonneg _ _ h0f, hrowdef', List.get?_set_eq_of_lt _ (by omega)]
  · intro f' r' hsq' hne
    obtain ⟨h0f', h1f', h0r', h1r'⟩ := hsq'
    unfold get_piece
    rw [pyGet_nonneg _ _ h0r', pyGet_nonneg _ _ h0r']
    by_cases hrr : r' = r
    · subst hrr
      have hff : f' ≠ f := fun h => hne ⟨h, rfl⟩
      show (grid'.get? r'.toNat).bind _ = (b.grid.get? r'.toNat).bind _
      rw [hgriddef, List.get?_set_eq_of_lt _ (by omega), hrow]
      simp only [Option.some_bind]
      rw [pyGet_nonneg _ _ h0f', pyGet_nonneg _ _ h0f', hrowdef',
        List.get?_set_ne _ _ (by omega)]
    · show (grid'.get? r'.toNat).bind _ = (b.grid.get? r'.toNat).bind _
      rw [hgriddef, List.get?_set_ne _ _ (by omega)]

/-- Two well-formed boards agreeing on every square and on every non-grid
field are equal. -/
theorem board_eq_of_get_piece (b' b : Board) (hb' : WF8 b') (hb : WF8 b)
    (hg : ∀ f r : Int, SqOk (f, r) → get_piece b' f r = get_piece b f r)
    (hac : b'.activeColour = b.activeColour) (hcr : b'.castlingRights = b.castlingRights)
    (hep : b'.enPassantSquare = b.enPassantSquare) (hhm : b'.halfmoveClock = b.halfmoveClock)
    (hfm : b'.fullmoveNumber = b.fullmoveNumber) (hwk : b'.whiteKing = b.whiteKing)
    (hbk : b'.blackKing = b.blackKing) (hga : b'.gameActive = b.gameActive) : b' = b := by
  obtain ⟨hlen', hrows'⟩ := hb'
  obtain ⟨hlen, hrows⟩ := hb
  have hgrid : b'.grid = b.grid := by
    apply List.ext_get?_iff.mpr
    intro n
    by_cases hn : n < 8
    · have hn' : n < b'.grid.length := by omega
      have hnb : n < b.grid.length := by omega
      rw [List.get?_eq_get hn', List.get?_eq_get hnb]
      congr 1
      apply List.ext_get?_iff.mpr
      intro j
      have hrl' : (b'.grid.get ⟨n, hn'⟩).length = 8 := hrows' _ (List.get_mem _ _ _)
      have hrl : (b.grid.get ⟨n, hn'.trans_le (by omega)⟩).length = 8 :=
        hrows _ (List.get_mem _ _ _)
      by_cases hj : j < 8
      · have hsq : SqOk ((j : Int), (n : Int)) := by
          unfold SqOk
          refine ⟨?_, ?_, ?_, ?_⟩ <;> simp <;> omega
        have hthis := hg (j : Int) (n : Int) hsq
        unfold get_piece at hthis
        rw [pyGet_nonneg _ _ (Int.natCast_nonneg n), pyGet_nonneg _ _ (Int.natCast_nonneg n),
          Int.toNat_natCast, List.get?_eq_get hn', List.get?_eq_get hnb] at hthis
        simp only [Option.bind_eq_bind, Option.some_bind] at hthis
        rw [pyGet_nonneg _ _ (Int.natCast_nonneg j), pyGet_nonneg _ _ (Int.natCast_nonneg j),
          Int.toNat_natCast] at hthis
        exact hthis
      · rw [List.get?_eq_none.mpr (by omega), List.get?_eq_none.mpr (by omega)]
    · rw [List.get?_eq_none.mpr (by omega), List.get?_eq_none.mpr (by omega)]
  cases b'
  cases b
  simp_all

/-! ## Move / undo characterization -/

theorem sync_kings_grid (b : Board) (p : Piece) : (sync_kings b p).grid = b.grid := rfl

theorem get_piece_sync (b : Board) (p : Piece) (f r : Int) :
    get_piece (sync_kings b p) f r = get_piece b f r := rfl

/-- Full characterization of a successful `move_piece` from a well-formed
position: result fields, captured piece, and the occupancy of every square. -/
theorem move_piece_spec (b : Board) (p : Piece) (m : Int × Int)
    (hb : WF8 b) (hsq : SqOk (p.file, p.rank)) (hm : SqOk m) :
    ∃ b1 cap, move_piece b p m = some (b1, cap, movedTo p m) ∧
      get_piece b m.1 m.2 = some cap ∧ WF8 b1 ∧
      b1.activeColour = b.activeColour ∧ b1.castlingRights = b.castlingRights ∧
      b1.enPassantSquare = b.enPassantSquare ∧ b1.halfmoveClock = b.halfmoveClock ∧
      b1.fullmoveNumber = b.fullmoveNumber ∧ b1.gameActive = b.gameActive ∧
      b1.whiteKing = kUpd b.whiteKing (movedTo p m) ∧
      b1.blackKing = kUpd b.blackKing (movedTo p m) ∧
      ∀ f r : Int, SqOk (f, r) →
        get_piece b1 f r =
          if f = p.file ∧ r = p.rank then some none
          else if f = m.1 ∧ r = m.2 then some (some (movedTo p m))
          else get_piece b f r := by
  obtain ⟨cap, hcap⟩ := get_piece_some b m.1 m.2 hb hm
  obtain ⟨bA, hsetA, hbA, hacA, hcrA, hepA, hhmA, hfmA, hwkA, hbkA, hgaA, hgetA, hothA⟩ :=
    set_piece_spec b m.1 m.2 (some (movedTo p m)) hb hm
  obtain ⟨bB, hsetB, hbB, hacB, hcrB, hepB, hhmB, hfmB, hwkB, hbkB, hgaB, hgetB, hothB⟩ :=
    set_piece_spec bA p.file p.rank none hbA hsq
  refine ⟨sync_kings bB (movedTo p m), cap, ?_, hcap, ?_, ?_, ?_, ?_, ?_, ?_, ?_, ?_, ?_, ?_⟩
  · unfold movedTo at hsetA
    unfold move_piece
    rw [hcap]
    simp only [Option.bind_eq_bind, Option.some_bind]
    rw [hsetA]
    simp only [Option.some_bind]
    rw [hsetB]
    rfl
  · exact ⟨by rw [sync_kings_grid]; exact hbB.1, by rw [sync_kings_grid]; exact hbB.2⟩
  · show bB.activeColour = _
    rw [hacB, hacA]
  · show bB.castlingRights = _
    rw [hcrB, hcrA]
  · show bB.enPassantSquare = _
    rw [hepB, hepA]
  · show bB.halfmoveClock = _
    rw [hhmB, hhmA]
  · show bB.fullmoveNumber = _
    rw [hfmB, hfmA]
  · show bB.gameActive = _
    rw [hgaB, hgaA]
  · show kUpd bB.whiteKing _ = _
    rw [hwkB, hwkA]
  · show kUpd bB.blackKing _ = _
    rw [hbkB, hbkA]
  · intro f r hfr
    rw [get_piece_sync]
    by_cases h1 : f = p.file ∧ r = p.rank
    · rw [if_pos h1]
      obtain ⟨hf1, hr1⟩ := h1
      subst hf1
      subst hr1
      exact hgetB
    · rw [if_neg h1]
      rw [hothB f r hfr h1]
      by_cases h2 : f = m.1 ∧ r = m.2
      · rw [if_pos h2]
        obtain ⟨hf2, hr2⟩ := h2
        subst hf2
        subst hr2
        exact hgetA
      · rw [if_neg h2]
        exact hothA f r hfr h2

/-- Full characterization of a successful `undo_move` from a well-formed
position. -/
theorem undo_move_spec (b : Board) (p : Piece) (orig : Int × Int) (cap : Option Piece)
    (hb : WF8 b) (horig : SqOk orig) (hcur : SqOk (p.file, p.rank)) :
    ∃ b2, undo_move b p orig cap = some (b2, movedTo p orig) ∧ WF8 b2 ∧
      b2.activeColour = b.activeColour ∧ b2.castlingRights = b.castlingRights ∧
      b2.enPassantSquare = b.enPassantSquare ∧ b2.halfmoveClock = b.halfmoveClock ∧
      b2.fullmoveNumber = b.fullmoveNumber ∧ b2.gameActive = b.gameActive ∧
      b2.whiteKing = kUpd b.whiteKing (movedTo p orig) ∧
      b2.blackKing = kUpd b.blackKing (movedTo p orig) ∧
      ∀ f r : Int, SqOk (f, r) →
        get_piece b2 f r =
          if f = p.file ∧ r = p.rank then some cap
          else if f = orig.1 ∧ r = orig.2 then some (some (movedTo p orig))
          else get_piece b f r := by
  obtain ⟨bA, hsetA, hbA, hacA, hcrA, hepA, hhmA, hfmA, hwkA, hbkA, hgaA, hgetA, hothA⟩ :=
    set_piece_spec b orig.1 orig.2 (some (movedTo p orig)) hb horig
  obtain ⟨bB, hsetB, hbB, hacB, hcrB, hepB, hhmB, hfmB, hwkB, hbkB, hgaB, hgetB, hothB⟩ :=
    set_piece_spec bA p.file p.rank cap hbA hcur
  refine ⟨sync_kings bB (movedTo p orig), ?_, ?_, ?_, ?_, ?_, ?_, ?_, ?_, ?_, ?_, ?_⟩
  · unfold movedTo at hsetA
    unfold undo_move
    simp only [Option.bind_eq_bind]
    rw [hsetA]
    simp only [Option.some_bind]
    rw [hsetB]
    rfl
  · exact ⟨by rw [sync_kings_grid]; exact hbB.1, by rw [sync_kings_grid]; exact hbB.2⟩
  · show bB.activeColour = _
    rw [hacB, hacA]
  · show bB.castlingRights = _
    rw [hcrB, hcrA]
  · show bB.enPassantSquare = _
    rw [hepB, hepA]
  · show bB.halfmoveClock = _
    rw [hhmB, hhmA]
  · show bB.fullmoveNumber = _
    rw [hfmB, hfmA]
  · show bB.gameActive = _
    rw [hgaB, hgaA]
  · show kUpd bB.whiteKing _ = _
    rw [hwkB, hwkA]
  · show kUpd bB.blackKing _ = _
    rw [hbkB, hbkA]
  · intro f r hfr
    rw [get_piece_sync]
    by_cases h1 : f = p.file ∧ r = p.rank
    · rw [if_pos h1]
      obtain ⟨hf1, hr1⟩ := h1
      subst hf1
      subst hr1
      exact hgetB
    · rw [if_neg h1]
      rw [hothB f r hfr h1]
      by_cases h2 : f = orig.1 ∧ r = orig.2
      · rw [if_pos h2]
        obtain ⟨hf2, hr2⟩ := h2
        subst hf2
        subst hr2
        exact hgetA
      · rw [if_neg h2]
        exact hothA f r hfr h2

theorem kUpd_restore (o : Option Piece) (p pm : Piece) (hid : pm.id = p.id)
    (hal : ∀ k, o = some k → k.id = p.id → k = p) : kUpd (kUpd o pm) p = o := by
  match o with
  | none => rfl
  | some k =>
    simp only [kUpd]
    by_cases hk : k.id = pm.id
    · have hk' : k = p := hal k rfl (by rw [← hid]; exact hk)
      rw [if_pos hk]
      simp only [kUpd]
      rw [if_pos hid, hk']
    · rw [if_neg hk]
      simp only [kUpd]
      have hk2 : ¬k.id = p.id := by
        rw [← hid]
        exact hk
      rw [if_neg hk2]

/-- The simulate-and-revert round trip: after a successful `move_piece` from a
well-formed position in which `p` occupies its recorded square, the
`undo_move` performed by the legality filters succeeds and restores exactly
the original board and piece. -/
theorem move_undo_restore (b : Board) (p : Piece) (m : Int × Int)
    (hb : WF8 b) (hsq : SqOk (p.file, p.rank)) (hm : SqOk m)
    (hal : AliasOk b p)
    (hocc : get_piece b p.file p.rank = some (some p))
    {b1 : Board} {cap : Option Piece} {p1 : Piece}
    (hmv : move_piece b p m = some (b1, cap, p1)) :
    p1 = movedTo p m ∧ WF8 b1 ∧
      undo_move b1 p1 (p.file, p.rank) cap = some (b, p) := by
  obtain ⟨b1', cap', hmv', hcap', hb1', hac1, hcr1, hep1, hhm1, hfm1, hga1, hwk1, hbk1, hcell1⟩ :=
    move_piece_spec b p m hb hsq hm
  rw [hmv'] at hmv
  rw [Option.some.injEq, Prod.mk.injEq, Prod.mk.injEq] at hmv
  obtain ⟨h1, h2, h3⟩ := hmv
  subst h1
  subst h2
  subst h3
  refine ⟨rfl, hb1', ?_⟩
  have hcur : SqOk ((movedTo p m).file, (movedTo p m).rank) := hm
  obtain ⟨b2, hud, hb2, hac2, hcr2, hep2, hhm2, hfm2, hga2, hwk2, hbk2, hcell2⟩ :=
    undo_move_spec b1' (movedTo p m) (p.file, p.rank) cap' hb1' hsq hcur
  have hback : movedTo (movedTo p m) (p.file, p.rank) = p := rfl
  rw [hback] at hud hwk2 hbk2 hcell2
  have hb2b : b2 = b := by
    apply board_eq_of_get_piece b2 b hb2 hb
    · intro f r hfr
      rw [hcell2 f r hfr]
      by_cases hm1 : f = (movedTo p m).file ∧ r = (movedTo p m).rank
      · rw [if_pos hm1]
        obtain ⟨hf, hr⟩ := hm1
        have hf' : f = m.1 := hf
        have hr' : r = m.2 := hr
        subst hf'
        subst hr'
        exact hcap'.symm
      · rw [if_neg hm1]
        by_cases hp1 : f = p.file ∧ r = p.rank
        · rw [if_pos hp1]
          obtain ⟨hf, hr⟩ := hp1
          subst hf
          subst hr
          exact hocc.symm
        · rw [if_neg hp1]
          have hm1' : ¬(f = m.1 ∧ r = m.2) := hm1
          rw [hcell1 f r hfr, if_neg hp1, if_neg hm1']
    · rw [hac2, hac1]
    · rw [hcr2, hcr1]
    · rw [hep2, hep1]
    · rw [hhm2, hhm1]
    · rw [hfm2, hfm1]
    · rw [hwk2, hwk1]
      exact kUpd_restore b.whiteKing p (movedTo p m) rfl hal.1
    · rw [hbk2, hbk1]
      exact kUpd_restore b.blackKing p (movedTo p m) rfl hal.2
    · rw [hga2, hga1]
  rw [hud, hb2b]

/-- Workhorse for the legality-filter claims: a successful
`filter_self_check_moves` on a well-formed position restores the board and
piece exactly, and retains precisely the candidates whose simulation leaves
the friendly king not in check. -/
theorem filter_self_check_spec :
    ∀ (ms : List (Int × Int)) (b : Board) (p : Piece),
      WF8 b → SqOk (p.file, p.rank) → AliasOk b p →
      get_piece b p.file p.rank = some (some p) →
      (∀ m ∈ ms, SqOk m) →
      ∀ res b' p', filter_self_check_moves b p ms = some (res, b', p') →
        b' = b ∧ p' = p ∧ ∀ d, d ∈ res ↔ (d ∈ ms ∧ simTest b p d = some false)
  | [], b, p => by
    intro _ _ _ _ _ res b' p' hres
    unfold filter_self_check_moves at hres
    rw [Option.some.injEq, Prod.mk.injEq, Prod.mk.injEq] at hres
    obtain ⟨h1, h2, h3⟩ := hres
    subst h1
    subst h2
    subst h3
    simp
  | m :: rest, b, p => by
    intro hb hsq hal hocc hms res b' p' hres
    unfold filter_self_check_moves at hres
    cases hmv : move_piece b p m with
    | none => rw [hmv] at hres; simp at hres
    | some t =>
      obtain ⟨b1, cap, p1⟩ := t
      rw [hmv] at hres
      simp only [Option.bind_eq_bind, Option.some_bind] at hres
      obtain ⟨hp1, hb1, hundo⟩ :=
        move_undo_restore b p m hb hsq (hms m (List.mem_cons_self m rest)) hal hocc hmv
      cases hking : kingRef b1 p1.colour with
      | none => rw [hking] at hres; simp at hres
      | some king =>
        rw [hking] at hres
        simp only [Option.some_bind] at hres
        cases hc : in_check king b1 with
        | none => rw [hc] at hres; simp at hres
        | some c =>
          rw [hc] at hres
          simp only [Option.some_bind] at hres
          rw [hundo] at hres
          simp only [Option.some_bind] at hres
          cases hrec : filter_self_check_moves b p rest with
          | none => rw [hrec] at hres; simp at hres
          | some u =>
            obtain ⟨res0, b3, p3⟩ := u
            rw [hrec] at hres
            simp only [Option.pure_def, Option.some_bind, Option.some.injEq,
              Prod.mk.injEq] at hres
            obtain ⟨h1, h2, h3⟩ := hres
            subst h2
            subst h3
            obtain ⟨hb3, hp3, hmem⟩ :=
              filter_self_check_spec rest b p hb hsq hal hocc
                (fun x hx => hms x (List.mem_cons_of_mem m hx)) res0 b3 p3 hrec
            refine ⟨hb3, hp3, ?_⟩
            have hsim : simTest b p m = some c := by
              unfold simTest
              rw [hmv]
              simp only [Option.bind_eq_bind, Option.some_bind]
              rw [hking]
              simp only [Option.some_bind]
              exact hc
            intro d
            subst h1
            cases c with
            | true =>
              simp only [if_pos rfl]
              constructor
              · intro hd
                obtain ⟨hd1, hd2⟩ := (hmem d).mp hd
                exact ⟨List.mem_cons_of_mem m hd1, hd2⟩
              · intro hd
                obtain ⟨hd1, hd2⟩ := hd
                rcases List.mem_cons.mp hd1 with h | h
                · subst h
                  rw [hsim] at hd2
                  simp at hd2
                · exact (hmem d).mpr ⟨h, hd2⟩
            | false =>
              simp only [Bool.false_eq_true, if_neg (by simp : ¬False)]
              constructor
              · intro hd
                rcases List.mem_cons.mp hd with h | h
                · rw [h]
                  exact ⟨List.mem_cons_self m rest, hsim⟩
                · obtain ⟨hd1, hd2⟩ := (hmem d).mp h
                  exact ⟨List.mem_cons_of_mem m hd1, hd2⟩
              · intro hd
                obtain ⟨hd1, hd2⟩ := hd
                rcases List.mem_cons.mp hd1 with h | h
                · rw [h]
                  exact List.mem_cons_self m res0
                · exact List.mem_cons_of_mem m ((hmem d).mpr ⟨h, hd2⟩)

/-- If every candidate's simulation leaves the king out of check, the
self-check filter is the identity on the move list (and restores board and
piece). -/
theorem filter_self_check_allpass :
    ∀ (ms : List (Int × Int)) (b : Board) (p : Piece),
      WF8 b → SqOk (p.file, p.rank) → AliasOk b p →
      get_piece b p.file p.rank = some (some p) →
      (∀ m ∈ ms, SqOk m) →
      (∀ m ∈ ms, simTest b p m = some false) →
      filter_self_check_moves b p ms = some (ms, b, p)
  | [], b, p => by
    intro _ _ _ _ _ _
    unfold filter_self_check_moves
    rfl
  | m :: rest, b, p => by
    intro hb hsq hal hocc hms hpass
    have hsim := hpass m (List.mem_cons_self m rest)
    unfold simTest at hsim
    cases hmv : move_piece b p m with
    | none => rw [hmv] at hsim; simp at hsim
    | some t =>
      obtain ⟨b1, cap, p1⟩ := t
      rw [hmv] at hsim
      simp only [Option.bind_eq_bind, Option.some_bind] at hsim
      cases hking : kingRef b1 p1.colour with
      | none => rw [hking] at hsim; simp at hsim
      | some king =>
        rw [hking] at hsim
        simp only [Option.some_bind] at hsim
        obtain ⟨hp1, hb1, hundo⟩ :=
          move_undo_restore b p m hb hsq (hms m (List.mem_cons_self m rest)) hal hocc hmv
        have hrec :=
          filter_self_check_allpass rest b p hb hsq hal hocc
            (fun x hx => hms x (List.mem_cons_of_mem m hx))
            (fun x hx => hpass x (List.mem_cons_of_mem m hx))
        unfold filter_self_check_moves
        rw [hmv]
        simp only [Option.bind_eq_bind, Option.some_bind]
        rw [hking]
        simp only [Option.some_bind]
        rw [hsim]
        simp only [Option.some_bind]
        rw [hundo]
        simp only [Option.some_bind]
        rw [hrec]
        simp only [Option.some_bind, Option.pure_def]
        rfl

/-- Characterization of a successful `filter_in_check_moves`: it restores the
board and piece; it returns the input unchanged (king not in check) or
filters by the same simulation test as the self-check filter. -/
theorem filter_in_check_spec (b : Board) (p : Piece) (ms : List (Int × Int))
    (hb : WF8 b) (hsq : SqOk (p.file, p.rank)) (hal : AliasOk b p)
    (hocc : get_piece b p.file p.rank = some (some p))
    (hms : ∀ m ∈ ms, SqOk m)
    (res : List (Int × Int)) (b' : Board) (p' : Piece)
    (hres : filter_in_check_moves b p ms = some (res, b', p')) :
    b' = b ∧ p' = p ∧
      (res = ms ∨ ∀ d, d ∈ res ↔ d ∈ ms ∧ simTest b p d = some false) := by
  unfold filter_in_check_moves at hres
  cases hking : kingRef b p.colour with
  | none => rw [hking] at hres; simp at hres
  | some king =>
    rw [hking] at hres
    simp only [Option.bind_eq_bind, Option.some_bind] at hres
    cases hc : in_check king b with
    | none => rw [hc] at hres; simp at hres
    | some c =>
      rw [hc] at hres
      simp only [Option.some_bind] at hres
      cases c with
      | true =>
        simp only [if_pos rfl] at hres
        obtain ⟨h1, h2, h3⟩ := filter_self_check_spec ms b p hb hsq hal hocc hms res b' p' hres
        exact ⟨h1, h2, Or.inr h3⟩
      | false =>
        simp only [Bool.false_eq_true, if_neg (by simp : ¬False), Option.pure_def,
          Option.some.injEq, Prod.mk.injEq] at hres
        obtain ⟨h1, h2, h3⟩ := hres
        exact ⟨h2.symm, h3.symm, Or.inl h1.symm⟩

/-- Generic invariant preservation through an `Option`-monadic left fold. -/
theorem foldlM_inv {α β : Type _} (P : β → Prop) (step : β → α → Option β)
    (hstep : ∀ acc a acc', P acc → step acc a = some acc' → P acc') :
    ∀ (l : List α) (acc : β) (res : β), P acc → l.foldlM step acc = some res → P res
  | [], acc, res => by
    intro hacc hfold
    simp only [List.foldlM_nil, Option.pure_def, Option.some.injEq] at hfold
    rw [← hfold]
    exact hacc
  | a :: l, acc, res => by
    intro hacc hfold
    simp only [List.foldlM_cons, Option.bind_eq_bind] at hfold
    cases hstep1 : step acc a with
    | none => rw [hstep1] at hfold; simp at hfold
    | some acc' =>
      rw [hstep1] at hfold
      simp only [Option.some_bind] at hfold
      exact foldlM_inv P step hstep l acc' res (hstep acc a acc' hacc hstep1) hfold

theorem offsetStep_SqOk (b : Board) (p : Piece) (acc : List (Int × Int))
    (d : Int × Int) (acc' : List (Int × Int)) (hacc : ∀ m ∈ acc, SqOk m)
    (hstep : offsetStep b p acc d = some acc') : ∀ m ∈ acc', SqOk m := by
  unfold offsetStep at hstep
  by_cases hbnd : 0 ≤ p.file + d.1 ∧ p.file + d.1 < 8 ∧ 0 ≤ p.rank + d.2 ∧ p.rank + d.2 < 8
  · rw [if_pos hbnd] at hstep
    cases ht : get_piece b (p.file + d.1) (p.rank + d.2) with
    | none => rw [ht] at hstep; simp at hstep
    | some t =>
      rw [ht] at hstep
      simp only [Option.bind_eq_bind, Option.some_bind, Option.pure_def,
        Option.some.injEq] at hstep
      have hnew : ∀ m ∈ acc ++ [(p.file + d.1, p.rank + d.2)], SqOk m := by
        intro m hm
        rcases List.mem_append.mp hm with h | h
        · exact hacc m h
        · simp only [List.mem_singleton] at h
          rw [h]
          exact ⟨hbnd.1, hbnd.2.1, hbnd.2.2.1, hbnd.2.2.2⟩
      rw [← hstep]
      cases t with
      | none => exact hnew
      | some tp =>
        by_cases htc : tp.colour ≠ p.colour
        · simp only [if_pos htc]
          exact hnew
        · simp only [if_neg htc]
          exact hacc
  · rw [if_neg hbnd] at hstep
    simp only [Option.pure_def, Option.some.injEq] at hstep
    rw [← hstep]
    exact hacc

theorem knight_pseudo_SqOk (b : Board) (p : Piece) (ms : List (Int × Int))
    (h : knight_pseudo_moves b p = some ms) : ∀ m ∈ ms, SqOk m :=
  foldlM_inv (fun l => ∀ m ∈ l, SqOk m) (offsetStep b p)
    (fun acc a acc' hacc hstep => offsetStep_SqOk b p acc a acc' hacc hstep)
    knightOffsets [] ms (by simp) h

theorem king_pseudo_SqOk (b : Board) (p : Piece) (ms : List (Int × Int))
    (h : king_pseudo_moves b p = some ms) : ∀ m ∈ ms, SqOk m :=
  foldlM_inv (fun l => ∀ m ∈ l, SqOk m) (offsetStep b p)
    (fun acc a acc' hacc hstep => offsetStep_SqOk b p acc a acc' hacc hstep)
    kingOffsets [] ms (by simp) h

theorem slideRay_SqOk (b : Board) (p : Piece) :
    ∀ (fuel : Nat) (x y dx dy : Int) (ms : List (Int × Int)),
      slideRay b p fuel x y dx dy = some ms → ∀ m ∈ ms, SqOk m
  | 0, x, y, dx, dy, ms => by
    intro h m hm
    unfold slideRay at h
    simp only [Option.some.injEq] at h
    rw [← h] at hm
    simp at hm
  | fuel + 1, x, y, dx, dy, ms => by
    intro h m hm
    unfold slideRay at h
    by_cases hbnd : 0 ≤ x ∧ x < 8 ∧ 0 ≤ y ∧ y < 8
    · rw [if_pos hbnd] at h
      cases ht : get_piece b x y with
      | none => rw [ht] at h; simp at h
      | some t =>
        rw [ht] at h
        cases t with
        | none =>
          simp only [Option.bind_eq_bind] at h
          cases hrest : slideRay b p fuel (x + dx) (y + dy) dx dy with
          | none => rw [hrest] at h; simp at h
          | some rest =>
            rw [hrest] at h
            simp only [Option.some_bind, Option.pure_def, Option.some.injEq] at h
            rw [← h] at hm
            rcases List.mem_cons.mp hm with h1 | h1
            · rw [h1]
              exact ⟨hbnd.1, hbnd.2.1, hbnd.2.2.1, hbnd.2.2.2⟩
            · exact slideRay_SqOk b p fuel (x + dx) (y + dy) dx dy rest hrest m h1
        | some tp =>
          by_cases htc : tp.colour ≠ p.colour
          · simp only [if_pos htc, Option.some.injEq] at h
            rw [← h] at hm
            simp only [List.mem_singleton] at hm
            rw [hm]
            exact ⟨hbnd.1, hbnd.2.1, hbnd.2.2.1, hbnd.2.2.2⟩
          · simp only [if_neg htc, Option.some.injEq] at h
            rw [← h] at hm
            simp at hm
    · rw [if_neg hbnd] at h
      simp only [Option.some.injEq] at h
      rw [← h] at hm
      simp at hm

theorem slide_pseudo_SqOk (b : Board) (p : Piece) (dirs : List (Int × Int))
    (ms : List (Int × Int)) (h : slide_pseudo_moves b p dirs = some ms) :
    ∀ m ∈ ms, SqOk m := by
  refine foldlM_inv (fun l => ∀ m ∈ l, SqOk m) _ ?_ dirs [] ms (by simp) h
  intro acc d acc' hacc hstep
  simp only [Option.bind_eq_bind] at hstep
  cases hray : slideRay b p 8 (p.file + d.1) (p.rank + d.2) d.1 d.2 with
  | none => rw [hray] at hstep; simp at hstep
  | some ray =>
    rw [hray] at hstep
    simp only [Option.some_bind, Option.pure_def, Option.some.injEq] at hstep
    rw [← hstep]
    intro m hm
    rcases List.mem_append.mp hm with h1 | h1
    · exact hacc m h1
    · exact slideRay_SqOk b p 8 (p.file + d.1) (p.rank + d.2) d.1 d.2 ray hray m h1

/-- Specification of the shared Pawn/Knight/Bishop/Rook/King pipeline: a
successful `generate_moves` restores the board and piece, every returned
destination is an on-board square drawn from the pseudo-legal list, and its
simulation leaves the friendly king out of check. -/
theorem genPipeline_spec (pseudo : Board → Piece → Option (List (Int × Int)))
    (b : Board) (p : Piece)
    (hb : WF8 b) (hsq : SqOk (p.file, p.rank)) (hal : AliasOk b p)
    (hocc : get_piece b p.file p.rank = some (some p))
    (hcand : ∀ ms0, pseudo b p = some ms0 → ∀ m ∈ ms0, SqOk m)
    (ms : List (Int × Int)) (b' : Board) (p' : Piece)
    (hgen : genPipeline pseudo b p = some (ms, b', p')) :
    b' = b ∧ p' = p ∧ ∀ d ∈ ms, SqOk d ∧ simTest b p d = some false := by
  unfold genPipeline at hgen
  cases hps : pseudo b p with
  | none => rw [hps] at hgen; simp at hgen
  | some ms0 =>
    rw [hps] at hgen
    simp only [Option.bind_eq_bind, Option.some_bind] at hgen
    cases hfsc : filter_self_check_moves b p ms0 with
    | none => rw [hfsc] at hgen; simp at hgen
    | some u =>
      obtain ⟨ms1, b1, p1⟩ := u
      rw [hfsc] at hgen
      simp only [Option.some_bind] at hgen
      have hms0 : ∀ m ∈ ms0, SqOk m := hcand ms0 hps
      obtain ⟨hb1, hp1, hmem1⟩ :=
        filter_self_check_spec ms0 b p hb hsq hal hocc hms0 ms1 b1 p1 hfsc
      rw [hb1, hp1] at hgen
      have hms1 : ∀ m ∈ ms1, SqOk m := fun m hm => hms0 m ((hmem1 m).mp hm).1
      obtain ⟨hb2, hp2, hmem2⟩ :=
        filter_in_check_spec b p ms1 hb hsq hal hocc hms1 ms b' p' hgen
      refine ⟨hb2, hp2, ?_⟩
      intro d hd
      rcases hmem2 with h | h
      · rw [h] at hd
        obtain ⟨hd0, hsim⟩ := (hmem1 d).mp hd
        exact ⟨hms0 d hd0, hsim⟩
      · obtain ⟨hd1, hsim⟩ := (h d).mp hd
        exact ⟨hms1 d hd1, hsim⟩

theorem simTest_false_elim (b : Board) (p : Piece) (d : Int × Int)
    (hb : WF8 b) (hsq : SqOk (p.file, p.rank)) (hd : SqOk d)
    (hsim : simTest b p d = some false) :
    ∃ b1 cap king, move_piece b p d = some (b1, cap, movedTo p d) ∧
      kingRef b1 p.colour = some king ∧ in_check king b1 = some false := by
  obtain ⟨b1, cap, hmv, _, _⟩ := move_piece_spec b p d hb hsq hd
  unfold simTest at hsim
  rw [hmv] at hsim
  simp only [Option.bind_eq_bind, Option.some_bind] at hsim
  cases hking : kingRef b1 (movedTo p d).colour with
  | none => rw [hking] at hsim; simp at hsim
  | some king =>
    rw [hking] at hsim
    simp only [Option.some_bind] at hsim
    exact ⟨b1, cap, king, hmv, hking, hsim⟩

/-- C1.  Every destination returned by `generate_moves` (all six piece
kinds, including the Queen with its truncated filter chain), when replayed
with `move_piece` on the original position, yields a position in which the
moving side's king is not attacked according to `in_check`. -/
theorem generate_moves_self_check_safe (b : Board) (p : Piece)
    (hb : WF8 b) (hsq : SqOk (p.file, p.rank)) (hal : AliasOk b p)
    (hocc : get_piece b p.file p.rank = some (some p))
    (hcand : ∀ ms0, candidate_squares b p = some ms0 → ∀ m ∈ ms0, SqOk m)
    (ms : List (Int × Int)) (b' : Board) (p' : Piece)
    (hgen : generate_moves b p = some (ms, b', p'))
    (d : Int × Int) (hd : d ∈ ms) :
    ∃ b1 cap king, move_piece b p d = some (b1, cap, movedTo p d) ∧
      kingRef b1 p.colour = some king ∧ in_check king b1 = some false := by
  unfold generate_moves at hgen
  unfold candidate_squares at hcand
  cases hpt : p.pieceType
  all_goals rw [hpt] at hgen hcand
  case NONE => simp at hgen
  case PAWN =>
    unfold pawn_generate_moves at hgen
    obtain ⟨_, _, hprop⟩ := genPipeline_spec pawn_pseudo_moves b p hb hsq hal hocc hcand
      ms b' p' hgen
    obtain ⟨hdok, hsim⟩ := hprop d hd
    exact simTest_false_elim b p d hb hsq hdok hsim
  case KNIGHT =>
    unfold knight_generate_moves at hgen
    obtain ⟨_, _, hprop⟩ := genPipeline_spec knight_pseudo_moves b p hb hsq hal hocc
      (fun ms0 h => knight_pseudo_SqOk b p ms0 h) ms b' p' hgen
    obtain ⟨hdok, hsim⟩ := hprop d hd
    exact simTest_false_elim b p d hb hsq hdok hsim
  case BISHOP =>
    unfold bishop_generate_moves at hgen
    obtain ⟨_, _, hprop⟩ := genPipeline_spec bishop_pseudo_moves b p hb hsq hal hocc
      (fun ms0 h => slide_pseudo_SqOk b p diagDirs ms0 h) ms b' p' hgen
    obtain ⟨hdok, hsim⟩ := hprop d hd
    exact simTest_false_elim b p d hb hsq hdok hsim
  case ROOK =>
    unfold rook_generate_moves at hgen
    obtain ⟨_, _, hprop⟩ := genPipeline_spec rook_pseudo_moves b p hb hsq hal hocc
      (fun ms0 h => slide_pseudo_SqOk b p orthoDirs ms0 h) ms b' p' hgen
    obtain ⟨hdok, hsim⟩ := hprop d hd
    exact simTest_false_elim b p d hb hsq hdok hsim
  case KING =>
    unfold king_generate_moves at hgen
    obtain ⟨_, _, hprop⟩ := genPipeline_spec king_pseudo_moves b p hb hsq hal hocc
      (fun ms0 h => king_pseudo_SqOk b p ms0 h) ms b' p' hgen
    obtain ⟨hdok, hsim⟩ := hprop d hd
    exact simTest_false_elim b p d hb hsq hdok hsim
  case QUEEN =>
    unfold queen_generate_moves at hgen
    cases hrg : rook_generate_moves b p with
    | none => rw [hrg] at hgen; simp at hgen
    | some u =>
      obtain ⟨rms, bA, pA⟩ := u
      rw [hrg] at hgen
      simp only [Option.bind_eq_bind, Option.some_bind] at hgen
      unfold rook_generate_moves at hrg
      obtain ⟨hbA, hpA, hpropR⟩ := genPipeline_spec rook_pseudo_moves b p hb hsq hal hocc
        (fun ms0 h => slide_pseudo_SqOk b p orthoDirs ms0 h) rms bA pA hrg
      rw [hbA, hpA] at hgen
      cases hbg : bishop_generate_moves b p with
      | none => rw [hbg] at hgen; simp at hgen
      | some u2 =>
        obtain ⟨bms, bB, pB⟩ := u2
        rw [hbg] at hgen
        simp only [Option.some_bind] at hgen
        unfold bishop_generate_moves at hbg
        obtain ⟨hbB, hpB, hpropB⟩ := genPipeline_spec bishop_pseudo_moves b p hb hsq hal
          hocc (fun ms0 h => slide_pseudo_SqOk b p diagDirs ms0 h) bms bB pB hbg
        rw [hbB, hpB] at hgen
        have hmsq : ∀ m ∈ rms ++ bms, SqOk m := by
          intro m hm
          rcases List.mem_append.mp hm with h | h
          · exact (hpropR m h).1
          · exact (hpropB m h).1
        obtain ⟨hb', hp', hmem⟩ :=
          filter_self_check_spec (rms ++ bms) b p hb hsq hal hocc hmsq ms b' p' hgen
        obtain ⟨hdm, hsim⟩ := (hmem d).mp hd
        exact simTest_false_elim b p d hb hsq (hmsq d hdm) hsim

/-! ## Scalar-field preservation through the move machinery -/

theorem sameScalars_refl (b : Board) : sameScalars b b :=
  ⟨rfl, rfl, rfl, rfl, rfl, rfl⟩

theorem sameScalars_trans {a b c : Board} (h1 : sameScalars a b) (h2 : sameScalars b c) :
    sameScalars a c := by
  obtain ⟨x1, x2, x3, x4, x5, x6⟩ := h1
  obtain ⟨y1, y2, y3, y4, y5, y6⟩ := h2
  exact ⟨x1.trans y1, x2.trans y2, x3.trans y3, x4.trans y4, x5.trans y5, x6.trans y6⟩

theorem set_piece_sameScalars {b : Board} {f r : Int} {v : Option Piece} {b' : Board}
    (h : set_piece b f r v = some b') : sameScalars b' b := by
  unfold set_piece at h
  cases h1 : pyGet b.grid r with
  | none => rw [h1] at h; simp at h
  | some row =>
    rw [h1] at h
    simp only [Option.bind_eq_bind, Option.some_bind] at h
    cases h2 : pySet row f v with
    | none => rw [h2] at h; simp at h
    | some row' =>
      rw [h2] at h
      simp only [Option.some_bind] at h
      cases h3 : pySet b.grid r row' with
      | none => rw [h3] at h; simp at h
      | some grid' =>
        rw [h3] at h
        simp only [Option.pure_def, Option.some_bind, Option.some.injEq] at h
        rw [← h]
        exact ⟨rfl, rfl, rfl, rfl, rfl, rfl⟩

theorem sync_kings_sameScalars (b : Board) (p : Piece) : sameScalars (sync_kings b p) b :=
  sameScalars_refl b

theorem move_piece_sameScalars {b : Board} {p : Piece} {m : Int × Int}
    {b1 : Board} {cap : Option Piece} {p1 : Piece}
    (h : move_piece b p m = some (b1, cap, p1)) : sameScalars b1 b := by
  unfold move_piece at h
  cases h1 : get_piece b m.1 m.2 with
  | none => rw [h1] at h; simp at h
  | some t =>
    rw [h1] at h
    simp only [Option.bind_eq_bind, Option.some_bind] at h
    cases h2 : set_piece b m.1 m.2 (some { p with file := m.1, rank := m.2 }) with
    | none => rw [h2] at h; simp at h
    | some bA =>
      rw [h2] at h
      simp only [Option.some_bind] at h
      cases h3 : set_piece bA p.file p.rank none with
      | none => rw [h3] at h; simp at h
      | some bB =>
        rw [h3] at h
        simp only [Option.pure_def, Option.some_bind, Option.some.injEq, Prod.mk.injEq] at h
        rw [← h.1]
        exact sameScalars_trans (⟨rfl, rfl, rfl, rfl, rfl, rfl⟩ : sameScalars (sync_kings bB _) bB)
          (sameScalars_trans (set_piece_sameScalars h3) (set_piece_sameScalars h2))

theorem undo_move_sameScalars {b : Board} {p : Piece} {orig : Int × Int}
    {cap : Option Piece} {b2 : Board} {p2 : Piece}
    (h : undo_move b p orig cap = some (b2, p2)) : sameScalars b2 b := by
  unfold undo_move at h
  simp only [Option.bind_eq_bind] at h
  cases h1 : set_piece b orig.1 orig.2 (some { p with file := orig.1, rank := orig.2 }) with
  | none => rw [h1] at h; simp at h
  | some bA =>
    rw [h1] at h
    simp only [Option.some_bind] at h
    cases h2 : set_piece bA p.file p.rank cap with
    | none => rw [h2] at h; simp at h
    | some bB =>
      rw [h2] at h
      simp only [Option.pure_def, Option.some_bind, Option.some.injEq, Prod.mk.injEq] at h
      rw [← h.1]
      exact sameScalars_trans (⟨rfl, rfl, rfl, rfl, rfl, rfl⟩ : sameScalars (sync_kings bB _) bB)
        (sameScalars_trans (set_piece_sameScalars h2) (set_piece_sameScalars h1))

theorem filter_self_check_sameScalars :
    ∀ (ms : List (Int × Int)) (b : Board) (p : Piece)
      (res : List (Int × Int)) (b' : Board) (p' : Piece),
      filter_self_check_moves b p ms = some (res, b', p') → sameScalars b' b
  | [], b, p => by
    intro res b' p' h
    unfold filter_self_check_moves at h
    simp only [Option.some.injEq, Prod.mk.injEq] at h
    rw [← h.2.1]
    exact sameScalars_refl b
  | m :: rest, b, p => by
    intro res b' p' h
    unfold filter_self_check_moves at h
    cases h1 : move_piece b p m with
    | none => rw [h1] at h; simp at h
    | some t =>
      obtain ⟨b1, cap, p1⟩ := t
      rw [h1] at h
      simp only [Option.bind_eq_bind, Option.some_bind] at h
      cases h2 : kingRef b1 p1.colour with
      | none => rw [h2] at h; simp at h
      | some king =>
        rw [h2] at h
        simp only [Option.some_bind] at h
        cases h3 : in_check king b1 with
        | none => rw [h3] at h; simp at h
        | some c =>
          rw [h3] at h
          simp only [Option.some_bind] at h
          cases h4 : undo_move b1 p1 (p.file, p.rank) cap with
          | none => rw [h4] at h; simp at h
          | some u =>
            obtain ⟨b2, p2⟩ := u
            rw [h4] at h
            simp only [Option.some_bind] at h
            cases h5 : filter_self_check_moves b2 p2 rest with
            | none => rw [h5] at h; simp at h
            | some u2 =>
              obtain ⟨res0, b3, p3⟩ := u2
              rw [h5] at h
              simp only [Option.pure_def, Option.some_bind, Option.some.injEq,
                Prod.mk.injEq] at h
              rw [← h.2.1]
              exact sameScalars_trans
                (sameScalars_trans (filter_self_check_sameScalars rest b2 p2 res0 b3 p3 h5)
                  (undo_move_sameScalars h4))
                (move_piece_sameScalars h1)

theorem filter_in_check_sameScalars {b : Board} {p : Piece} {ms : List (Int × Int)}
    {res : List (Int × Int)} {b' : Board} {p' : Piece}
    (h : filter_in_check_moves b p ms = some (res, b', p')) : sameScalars b' b := by
  unfold filter_in_check_moves at h
  cases h1 : kingRef b p.colour with
  | none => rw [h1] at h; simp at h
  | some king =>
    rw [h1] at h
    simp only [Option.bind_eq_bind, Option.some_bind] at h
    cases h2 : in_check king b with
    | none => rw [h2] at h; simp at h
    | some c =>
      rw [h2] at h
      simp only [Option.some_bind] at h
      cases c with
      | true =>
        simp only [if_pos rfl] at h
        exact filter_self_check_sameScalars ms b p res b' p' h
      | false =>
        simp only [Bool.false_eq_true, if_neg (by simp : ¬False), Option.pure_def,
          Option.some.injEq, Prod.mk.injEq] at h
        rw [← h.2.1]
        exact sameScalars_refl b

theorem genPipeline_sameScalars {pseudo : Board → Piece → Option (List (Int × Int))}
    {b : Board} {p : Piece} {ms : List (Int × Int)} {b' : Board} {p' : Piece}
    (h : genPipeline pseudo b p = some (ms, b', p')) : sameScalars b' b := by
  unfold genPipeline at h
  cases h1 : pseudo b p with
  | none => rw [h1] at h; simp at h
  | some ms0 =>
    rw [h1] at h
    simp only [Option.bind_eq_bind, Option.some_bind] at h
    cases h2 : filter_self_check_moves b p ms0 with
    | none => rw [h2] at h; simp at h
    | some u =>
      obtain ⟨ms1, b1, p1⟩ := u
      rw [h2] at h
      simp only [Option.some_bind] at h
      exact sameScalars_trans (filter_in_check_sameScalars h)
        (filter_self_check_sameScalars ms0 b p ms1 b1 p1 h2)

theorem generate_moves_sameScalars {b : Board} {p : Piece}
    {ms : List (Int × Int)} {b' : Board} {p' : Piece}
    (h : generate_moves b p = some (ms, b', p')) : sameScalars b' b := by
  unfold generate_moves at h
  cases hpt : p.pieceType
  all_goals rw [hpt] at h
  case NONE => simp at h
  case PAWN => exact genPipeline_sameScalars h
  case KNIGHT => exact genPipeline_sameScalars h
  case BISHOP => exact genPipeline_sameScalars h
  case ROOK => exact genPipeline_sameScalars h
  case KING => exact genPipeline_sameScalars h
  case QUEEN =>
    unfold queen_generate_moves at h
    cases h1 : rook_generate_moves b p with
    | none => rw [h1] at h; simp at h
    | some u =>
      obtain ⟨rms, bA, pA⟩ := u
      rw [h1] at h
      simp only [Option.bind_eq_bind, Option.some_bind] at h
      cases h2 : bishop_generate_moves bA pA with
      | none => rw [h2] at h; simp at h
      | some u2 =>
        obtain ⟨bms, bB, pB⟩ := u2
        rw [h2] at h
        simp only [Option.some_bind] at h
        exact sameScalars_trans (filter_self_check_sameScalars _ bB pB ms b' p' h)
          (sameScalars_trans (genPipeline_sameScalars h2) (genPipeline_sameScalars h1))

theorem noMovesScan_sameScalars :
    ∀ (cells : List (Int × Int)) (b : Board) (c : Colour)
      (st : Bool) (b' : Board),
      noMovesScan b c cells = some (st, b') → sameScalars b' b
  | [], b, c => by
    intro st b' h
    unfold noMovesScan at h
    simp only [Option.some.injEq, Prod.mk.injEq] at h
    rw [← h.2]
    exact sameScalars_refl b
  | (f, r) :: rest, b, c => by
    intro st b' h
    unfold noMovesScan at h
    cases h1 : get_piece b f r with
    | none => rw [h1] at h; simp at h
    | some t =>
      rw [h1] at h
      simp only [Option.bind_eq_bind, Option.some_bind] at h
      cases t with
      | none => exact noMovesScan_sameScalars rest b c st b' h
      | some piece =>
        dsimp only at h
        by_cases hc : piece.colour = c
        · rw [if_pos hc] at h
          cases h2 : generate_moves b piece with
          | none => rw [h2] at h; simp at h
          | some u =>
            obtain ⟨moves, b1, pz⟩ := u
            rw [h2] at h
            simp only [Option.some_bind] at h
            by_cases hmv : moves = []
            · rw [if_pos hmv] at h
              exact sameScalars_trans (noMovesScan_sameScalars rest b1 c st b' h)
                (generate_moves_sameScalars h2)
            · rw [if_neg hmv] at h
              simp only [Option.pure_def, Option.some.injEq, Prod.mk.injEq] at h
              rw [← h.2]
              exact generate_moves_sameScalars h2
        · rw [if_neg hc] at h
          exact noMovesScan_sameScalars rest b c st b' h

/-- Effect of `Board.update_game_state` on the turn/clock fields, whatever
the draw evaluation decides. -/
theorem update_game_state_effect {b b2 : Board} (h : update_game_state b = some b2) :
    b2.activeColour = (if b.activeColour = Colour.Black then Colour.White else Colour.Black) ∧
    b2.halfmoveClock = b.halfmoveClock + 1 ∧
    b2.fullmoveNumber =
      (if b.activeColour = Colour.Black then b.fullmoveNumber + 1 else b.fullmoveNumber) := by
  unfold update_game_state check_for_draw at h
  set ac : Colour := if b.activeColour = Colour.Black then Colour.White else Colour.Black
    with hacdef
  set fm : Int := if ac = Colour.White then b.fullmoveNumber + 1 else b.fullmoveNumber
    with hfmdef
  set bmid : Board :=
    { b with activeColour := ac, fullmoveNumber := fm, halfmoveClock := b.halfmoveClock + 1 }
    with hbmid
  have hfm' : fm = if b.activeColour = Colour.Black then b.fullmoveNumber + 1
      else b.fullmoveNumber := by
    rw [hfmdef, hacdef]
    cases b.activeColour <;> simp
  have hmain : b2.activeColour = ac ∧ b2.halfmoveClock = b.halfmoveClock + 1 ∧
      b2.fullmoveNumber = fm := by
    by_cases h100 : bmid.halfmoveClock ≥ 100
    · rw [if_pos h100] at h
      simp only [Option.some.injEq] at h
      rw [← h]
      exact ⟨rfl, rfl, rfl⟩
    · rw [if_neg h100] at h
      cases hscan : noMovesScan bmid bmid.activeColour scanCells with
      | none => rw [hscan] at h; simp at h
      | some u =>
        obtain ⟨st, b1⟩ := u
        rw [hscan] at h
        simp only [Option.bind_eq_bind, Option.some_bind] at h
        have hsc : sameScalars b1 bmid := noMovesScan_sameScalars scanCells bmid _ st b1 hscan
        by_cases hst : st = true ∧ b1.gameActive = true
        · rw [if_pos hst] at h
          simp only [Option.pure_def, Option.some.injEq] at h
          rw [← h]
          exact ⟨hsc.1, hsc.2.2.2.1, hsc.2.2.2.2.1⟩
        · rw [if_neg hst] at h
          simp only [Option.pure_def, Option.some.injEq] at h
          rw [← h]
          exact ⟨hsc.1, hsc.2.2.2.1, hsc.2.2.2.2.1⟩
  exact ⟨hmain.1, hmain.2.1, hmain.2.2.trans hfm'⟩

/-! ## Claim theorems -/

theorem scanCells_SqOk : ∀ m ∈ scanCells, SqOk m := by decide

theorem noMovesScan_true :
    ∀ (cells : List (Int × Int)) (b : Board) (c : Colour),
      WF8 b →
      (∀ m ∈ cells, SqOk m) →
      (∀ m ∈ cells, ∀ pc : Piece, get_piece b m.1 m.2 = some (some pc) → pc.colour = c →
        generate_moves b pc = some ([], b, pc)) →
      noMovesScan b c cells = some (true, b)
  | [], b, c => by
    intro _ _ _
    unfold noMovesScan
    rfl
  | (f, r) :: rest, b, c => by
    intro hb hcells hno
    unfold noMovesScan
    obtain ⟨t, ht⟩ := get_piece_some b f r hb (hcells (f, r) (List.mem_cons_self _ _))
    rw [ht]
    simp only [Option.bind_eq_bind, Option.some_bind]
    cases t with
    | none =>
      exact noMovesScan_true rest b c hb
        (fun x hx => hcells x (List.mem_cons_of_mem _ hx))
        (fun x hx => hno x (List.mem_cons_of_mem _ hx))
    | some pc =>
      dsimp only
      by_cases hc : pc.colour = c
      · rw [if_pos hc]
        rw [hno (f, r) (List.mem_cons_self _ _) pc ht hc]
        simp only [Option.some_bind, if_pos rfl]
        exact noMovesScan_true rest b c hb
          (fun x hx => hcells x (List.mem_cons_of_mem _ hx))
          (fun x hx => hno x (List.mem_cons_of_mem _ hx))
      · rw [if_neg hc]
        exact noMovesScan_true rest b c hb
          (fun x hx => hcells x (List.mem_cons_of_mem _ hx))
          (fun x hx => hno x (List.mem_cons_of_mem _ hx))

/-- C2 (amended): on a well-formed board where every piece of the king's
colour generates zero legal moves, `is_king_in_checkmate` returns true
regardless of whether the king is attacked, and, when that colour is the
active colour, `is_stalemate` returns true as well.  (The original claim's
final clause — that `is_king_in_checkmate` returns false in the unattacked
case — is refuted by the stalemate counterexample for this claim.) -/
theorem no_moves_checkmate_and_stalemate (b : Board) (king : Piece)
    (hb : WF8 b) (hno : noMovesFor b king.colour) :
    is_king_in_checkmate b king = some true ∧
      (b.activeColour = king.colour → is_stalemate b = some true) := by
  have hscan := noMovesScan_true scanCells b king.colour hb scanCells_SqOk hno
  constructor
  · unfold is_king_in_checkmate
    rw [hscan]
    rfl
  · intro hac
    unfold is_stalemate
    rw [hac, hscan]
    rfl

/-- C2 witness: the back-rank-mate position (Black king a8 attacked by the
rook on a1, rooks a1/b1, White king h1, Black to move). -/
theorem no_moves_checkmate_and_stalemate_witness :
    is_king_in_checkmate posBackRankMate cmKingB = some true ∧
      (posBackRankMate.activeColour = cmKingB.colour →
        is_stalemate posBackRankMate = some true) :=
  no_moves_checkmate_and_stalemate posBackRankMate cmKingB (by decide) (by decide)

/-- C2 counterexample: in the stalemate position (Black king a8, White queen
c7, White king h1, Black to move) the black king is not attacked, Black has
zero legal moves and `is_stalemate` is true — yet `is_king_in_checkmate`
returns true, where the claim requires false. -/
theorem checkmate_true_in_stalemate_counterexample :
    WF8 posStalemate ∧
    get_piece posStalemate 0 7 = some (some stKingB) ∧
    noMovesFor posStalemate Colour.Black ∧
    posStalemate.activeColour = Colour.Black ∧
    stKingB.colour = Colour.Black ∧
    in_check stKingB posStalemate = some false ∧
    is_stalemate posStalemate = some true ∧
    is_king_in_checkmate posStalemate stKingB = some true := by decide

/-- C3: a pawn move does not reset the halfmove clock.  From a position with
`halfmove_clock = 5`, moving the white pawn a2-a3 (a pawn move, no capture)
and running the mandatory `update_game_state` leaves the clock at 6:
`update_game_state` increments it unconditionally and nothing ever resets
it, although the claim (and the `Board` docstring) require a reset to 0. -/
theorem halfmove_clock_not_reset_on_pawn_move :
    hmPawnW.pieceType = PieceType.PAWN ∧
    posPawnClock.halfmoveClock = 5 ∧
    get_piece posPawnClock 0 1 = some (some hmPawnW) ∧
    ((move_piece posPawnClock hmPawnW (0, 2)).bind
      (fun t => update_game_state t.1)).map Board.halfmoveClock = some 6 := by decide

/-- C6: `in_check` is not total on the 8x8 board.  For the white king on e8
(rank 7) the pawn-attack probe reads rank 8 and raises `IndexError` (`none`);
and for the black king on e1 (rank 0) the probe reads Python index -1, which
wraps to rank 7, so a white pawn on d8 bogusly puts the king "in check". -/
theorem in_check_pawn_probe_out_of_range :
    WF8 posKingsRank7 ∧
    SqOk (wKingE8.file, wKingE8.rank) ∧
    get_piece posKingsRank7 wKingE8.file wKingE8.rank = some (some wKingE8) ∧
    in_check wKingE8 posKingsRank7 = none ∧
    WF8 posPawnWrap ∧
    wrapKingB.rank = 0 ∧ wrapPawnW.rank = 7 ∧
    in_check wrapKingB posPawnWrap = some true := by decide

/-- C7: for a piece occupying its recorded on-board square and any distinct
on-board destination, `move_piece` followed by `undo_move` with the returned
captured piece restores the occupancy of the origin and destination squares
and the piece's recorded position. -/
theorem move_piece_undo_move_roundtrip (b : Board) (p : Piece) (dest : Int × Int)
    (hb : WF8 b) (hsq : SqOk (p.file, p.rank)) (hdest : SqOk dest)
    (hne : dest ≠ (p.file, p.rank))
    (hocc : get_piece b p.file p.rank = some (some p)) :
    ∃ b1 cap p1, move_piece b p dest = some (b1, cap, p1) ∧
      ∃ b2 p2, undo_move b1 p1 (p.file, p.rank) cap = some (b2, p2) ∧
        get_piece b2 p.file p.rank = get_piece b p.file p.rank ∧
        get_piece b2 dest.1 dest.2 = get_piece b dest.1 dest.2 ∧
        p2.file = p.file ∧ p2.rank = p.rank := by
  obtain ⟨b1, cap, hmv, hcap, hb1, _, _, _, _, _, _, _, _, hcell1⟩ :=
    move_piece_spec b p dest hb hsq hdest
  have hcur : SqOk ((movedTo p dest).file, (movedTo p dest).rank) := hdest
  obtain ⟨b2, hud, hb2, _, _, _, _, _, _, _, _, hcell2⟩ :=
    undo_move_spec b1 (movedTo p dest) (p.file, p.rank) cap hb1 hsq hcur
  have hback : movedTo (movedTo p dest) (p.file, p.rank) = p := rfl
  rw [hback] at hud hcell2
  refine ⟨b1, cap, movedTo p dest, hmv, b2, p, hud, ?_, ?_, rfl, rfl⟩
  · have hnc : ¬(p.file = (movedTo p dest).file ∧ p.rank = (movedTo p dest).rank) := by
      intro ⟨h1, h2⟩
      exact hne (Prod.ext_iff.mpr ⟨h1.symm, h2.symm⟩)
    rw [hcell2 p.file p.rank hsq, if_neg hnc, if_pos ⟨rfl, rfl⟩, hocc]
  · have hc1 : dest.1 = (movedTo p dest).file ∧ dest.2 = (movedTo p dest).rank := ⟨rfl, rfl⟩
    rw [hcell2 dest.1 dest.2 hdest, if_pos hc1, hcap]

/-- C7 witness: the rook endgame, moving the rook a1 to a4 and back. -/
theorem move_piece_undo_move_roundtrip_witness :
    SqOk ((0 : Int), (3 : Int)) ∧
    (∃ b1 cap p1, move_piece posRookEndgame wRookA1 (0, 3) = some (b1, cap, p1) ∧
      ∃ b2 p2, undo_move b1 p1 (wRookA1.file, wRookA1.rank) cap = some (b2, p2) ∧
        get_piece b2 wRookA1.file wRookA1.rank = get_piece posRookEndgame wRookA1.file wRookA1.rank ∧
        get_piece b2 0 3 = get_piece posRookEndgame 0 3 ∧
        p2.file = wRookA1.file ∧ p2.rank = wRookA1.rank) :=
  ⟨by decide, move_piece_undo_move_roundtrip posRookEndgame wRookA1 (0, 3) (by decide)
    (by decide) (by decide) (by decide) (by decide)⟩

/-- C9: a successful `filter_self_check_moves` leaves the occupancy of every
square and the piece's recorded position exactly as before the call,
whatever was retained or rejected. -/
theorem filter_self_check_preserves_board (b : Board) (p : Piece)
    (ms : List (Int × Int)) (hb : WF8 b) (hsq : SqOk (p.file, p.rank))
    (hal : AliasOk b p) (hocc : get_piece b p.file p.rank = some (some p))
    (hms : ∀ m ∈ ms, SqOk m) (hdist : ∀ m ∈ ms, m ≠ (p.file, p.rank))
    (res : List (Int × Int)) (b' : Board) (p' : Piece)
    (hres : filter_self_check_moves b p ms = some (res, b', p')) :
    (∀ f r : Int, get_piece b' f r = get_piece b f r) ∧
      p'.file = p.file ∧ p'.rank = p.rank := by
  obtain ⟨h1, h2, _⟩ := filter_self_check_spec ms b p hb hsq hal hocc hms res b' p' hres
  rw [h1, h2]
  exact ⟨fun f r => rfl, rfl, rfl⟩

/-- C9 witness: filtering the rook move a1-a4 in the rook endgame. -/
theorem filter_self_check_preserves_board_witness :
    (∀ f r : Int, get_piece posRookEndgame f r = get_piece posRookEndgame f r) ∧
      wRookA1.file = wRookA1.file ∧ wRookA1.rank = wRookA1.rank := by
  have h := filter_self_check_preserves_board posRookEndgame wRookA1 [(0, 3)] (by decide)
    (by decide) (by decide) (by decide) (by decide) (by decide)
    [(0, 3)] posRookEndgame wRookA1 (by decide)
  exact h

/-- C10 counterexample: with the white king on e8 (rank 7) moving to e7,
`filter_self_check_moves` succeeds and keeps the move, but composing
`filter_in_check_moves` on its output raises (`none`) because the initial
`in_check` test probes rank 8 — so the composition is not the identity even
though the board, piece and candidate list satisfy all of the claim's
hypotheses. -/
theorem in_check_filter_composition_counterexample :
    WF8 posKingsRank7 ∧
    SqOk (wKingE8.file, wKingE8.rank) ∧
    get_piece posKingsRank7 wKingE8.file wKingE8.rank = some (some wKingE8) ∧
    SqOk ((4 : Int), (6 : Int)) ∧
    ((4 : Int), (6 : Int)) ≠ (wKingE8.file, wKingE8.rank) ∧
    filter_self_check_moves posKingsRank7 wKingE8 [(4, 6)] =
      some ([(4, 6)], posKingsRank7, wKingE8) ∧
    (filter_self_check_moves posKingsRank7 wKingE8 [(4, 6)]).bind
      (fun t => filter_in_check_moves t.2.1 t.2.2 t.1) = none := by decide

/-- C10 (amended): whenever the initial `in_check` test of
`filter_in_check_moves` evaluates on the pre-move board (it fails only for a
white king on rank 7), applying
`filter_in_check_moves` to the output of `filter_self_check_moves` returns
that output unchanged: both filters retain a candidate exactly when the
simulated move leaves the mover's king not in check. -/
theorem in_check_filter_after_self_check_filter (b : Board) (p : Piece)
    (ms : List (Int × Int)) (hb : WF8 b) (hsq : SqOk (p.file, p.rank))
    (hal : AliasOk b p) (hocc : get_piece b p.file p.rank = some (some p))
    (hms : ∀ m ∈ ms, SqOk m)
    (king : Piece) (hking : kingRef b p.colour = some king)
    (c0 : Bool) (hc0 : in_check king b = some c0)
    (res : List (Int × Int)) (b' : Board) (p' : Piece)
    (hres : filter_self_check_moves b p ms = some (res, b', p')) :
    filter_in_check_moves b' p' res = some (res, b', p') := by
  obtain ⟨h1, h2, hmem⟩ := filter_self_check_spec ms b p hb hsq hal hocc hms res b' p' hres
  rw [h1, h2]
  unfold filter_in_check_moves
  rw [hking]
  simp only [Option.bind_eq_bind, Option.some_bind]
  rw [hc0]
  simp only [Option.some_bind]
  cases c0 with
  | false => simp
  | true =>
    simp only [if_pos rfl]
    exact filter_self_check_allpass res b p hb hsq hal hocc
      (fun m hm => hms m ((hmem m).mp hm).1)
      (fun m hm => ((hmem m).mp hm).2)

/-- C10 witness: the rook endgame, where the white king on e1 makes the
initial `in_check` test evaluate (to false). -/
theorem in_check_filter_after_self_check_filter_witness :
    filter_in_check_moves posRookEndgame wRookA1 [((0 : Int), (3 : Int))] =
      some ([((0 : Int), (3 : Int))], posRookEndgame, wRookA1) :=
  in_check_filter_after_self_check_filter posRookEndgame wRookA1 [(0, 3)] (by decide)
    (by decide) (by decide) (by decide) (by decide) wKingE1 (by decide) false (by decide)
    [(0, 3)] posRookEndgame wRookA1 (by decide)

/-- C1 witness: the rook endgame; the rook move a1-a4 returned by
`generate_moves` leaves the white king not in check after `move_piece`. -/
theorem generate_moves_self_check_safe_witness :
    ∃ b1 cap king,
      move_piece posRookEndgame wRookA1 (0, 3) = some (b1, cap, movedTo wRookA1 (0, 3)) ∧
      kingRef b1 wRookA1.colour = some king ∧ in_check king b1 = some false := by
  refine generate_moves_self_check_safe posRookEndgame wRookA1 (by decide) (by decide)
    (by decide) (by decide) ?_
    [(1, 0), (2, 0), (3, 0), (0, 1), (0, 2), (0, 3), (0, 4), (0, 5), (0, 6), (0, 7)]
    posRookEndgame wRookA1 (by decide) (0, 3) (by decide)
  intro ms0 h
  have hc : candidate_squares posRookEndgame wRookA1 =
      some [(1, 0), (2, 0), (3, 0), (0, 1), (0, 2), (0, 3), (0, 4), (0, 5), (0, 6), (0, 7)] := by
    decide
  rw [hc] at h
  simp only [Option.some.injEq] at h
  rw [← h]
  decide

/-- C5 counterexample: a black pawn on a2 (rank 1 — not Black's own starting
rank 6) with a1 and (wrapped) a8 empty is offered the two-square advance
(0, -1), a destination that is not on the board. -/
theorem pawn_two_square_counterexample :
    bPawnA2.colour = Colour.Black ∧ bPawnA2.rank = 1 ∧ ¬bPawnA2.rank = 6 ∧
    pawn_pseudo_moves posBlackPawnA2 bPawnA2 = some [(0, 0), (0, -1)] ∧
    ¬SqOk ((0 : Int), (-1 : Int)) := by decide

theorem capProbe_mem (b : Board) (p : Piece) (d a : Int) (l : List (Int × Int))
    (h : capProbe b p d a = some l) : ∀ x ∈ l, x = (p.file + a, p.rank + d) := by
  unfold capProbe at h
  cases hp : (if 0 ≤ p.file + a ∧ p.file + a < 8 then get_piece b (p.file + a) (p.rank + d)
      else some none) with
  | none => rw [hp] at h; simp at h
  | some t =>
    rw [hp] at h
    dsimp only at h
    simp only [Option.some.injEq] at h
    rw [← h]
    cases t with
    | none => simp
    | some tp =>
      by_cases htc : tp.colour ≠ p.colour
      · simp only [if_pos htc]
        intro x hx
        simpa using hx
      · simp only [if_neg htc]
        simp

/-- C5 (amended): characterization of the pawn's pseudo-legal forward moves.
One square forward is offered exactly when the probed square (Python index
`rank + direction`, which may wrap) is empty; the two-square advance is
offered exactly when `rank = 1 or rank = 6` — irrespective of the pawn's
colour — and both probed squares are empty.  Consequently a black pawn on
rank 1 is offered a two-square advance to rank -1 (off the board), and the
probes raise for a white pawn that would read rank 8. -/
theorem pawn_pseudo_moves_characterization (b : Board) (p : Piece) (d : Int)
    (hd : d = pawnDir p)
    (ms : List (Int × Int)) (h : pawn_pseudo_moves b p = some ms) :
    ((p.file, p.rank + d) ∈ ms ↔ get_piece b p.file (p.rank + d) = some none) ∧
    ((p.file, p.rank + 2 * d) ∈ ms ↔
      ((p.rank = 1 ∨ p.rank = 6) ∧ get_piece b p.file (p.rank + d) = some none ∧
        get_piece b p.file (p.rank + 2 * d) = some none)) := by
  have hd10 : d = 1 ∨ d = -1 := by
    rw [hd]
    unfold pawnDir
    by_cases hc : p.colour = Colour.White
    · rw [if_pos hc]
      exact Or.inl rfl
    · rw [if_neg hc]
      exact Or.inr rfl
  unfold pawn_pseudo_moves at h
  rw [← hd] at h
  cases ht1 : get_piece b p.file (p.rank + d) with
  | none => rw [ht1] at h; simp at h
  | some t1 =>
    rw [ht1] at h
    simp only [Option.bind_eq_bind, Option.some_bind] at h
    cases hfwd : pawnForward b p d t1 with
    | none => rw [hfwd] at h; simp at h
    | some fwd =>
      rw [hfwd] at h
      simp only [Option.some_bind] at h
      cases hcl : capProbe b p d (-1) with
      | none => rw [hcl] at h; simp at h
      | some cl =>
        rw [hcl] at h
        simp only [Option.some_bind] at h
        cases hcr : capProbe b p d 1 with
        | none => rw [hcr] at h; simp at h
        | some cr =>
          rw [hcr] at h
          simp only [Option.some_bind, Option.pure_def, Option.some.injEq] at h
          have hclmem := capProbe_mem b p d (-1) cl hcl
          have hcrmem := capProbe_mem b p d 1 cr hcr
          have hcaps : ∀ y : Int, (p.file, y) ∉ cl ++ cr := by
            intro y hy
            rcases List.mem_append.mp hy with hx | hx
            · have hx' := hclmem _ hx
              rw [Prod.ext_iff] at hx'
              obtain ⟨h1, _⟩ := hx'
              simp only at h1
              omega
            · have hx' := hcrmem _ hx
              rw [Prod.ext_iff] at hx'
              obtain ⟨h1, _⟩ := hx'
              simp only at h1
              omega
          have hmem : ∀ y : Int, ((p.file, y) ∈ ms ↔ (p.file, y) ∈ fwd) := by
            intro y
            rw [← h, List.mem_append]
            constructor
            · intro hx
              rcases hx with hx | hx
              · exact hx
              · exact absurd hx (hcaps y)
            · exact Or.inl
          rw [hmem (p.rank + d), hmem (p.rank + 2 * d)]
          have hne12 : p.rank + 2 * d ≠ p.rank + d := by
            rcases hd10 with h1 | h1 <;> omega
          cases t1 with
          | some tp1 =>
            unfold pawnForward at hfwd
            rw [if_neg (by simp : ¬(some tp1 = (none : Option Piece)))] at hfwd
            simp only [Option.some.injEq] at hfwd
            rw [← hfwd]
            constructor
            · simp
            · simp
          | none =>
            unfold pawnForward at hfwd
            rw [if_pos rfl] at hfwd
            by_cases hr : p.rank = 1 ∨ p.rank = 6
            · rw [if_pos hr] at hfwd
              cases ht2 : get_piece b p.file (p.rank + 2 * d) with
              | none => rw [ht2] at hfwd; simp at hfwd
              | some t2 =>
                rw [ht2] at hfwd
                dsimp only at hfwd
                simp only [Option.some.injEq] at hfwd
                rw [← hfwd]
                cases t2 with
                | none =>
                  simp only [if_pos rfl]
                  constructor
                  · simp
                  · simp [hr]
                | some tp2 =>
                  rw [if_neg (by simp : ¬(some tp2 = (none : Option Piece)))]
                  constructor
                  · simp
                  · simp [hne12]
            · rw [if_neg hr] at hfwd
              simp only [Option.some.injEq] at hfwd
              rw [← hfwd]
              constructor
              · simp
              · simp [hne12, hr]

/-- C5 witness: the lone black pawn on a2 instantiates the characterization
with direction -1. -/
theorem pawn_pseudo_moves_characterization_witness :
    ((bPawnA2.file, bPawnA2.rank + (-1 : Int)) ∈ [((0 : Int), (0 : Int)), (0, -1)] ↔
      get_piece posBlackPawnA2 bPawnA2.file (bPawnA2.rank + (-1 : Int)) = some none) ∧
    ((bPawnA2.file, bPawnA2.rank + 2 * (-1 : Int)) ∈ [((0 : Int), (0 : Int)), (0, -1)] ↔
      ((bPawnA2.rank = 1 ∨ bPawnA2.rank = 6) ∧
        get_piece posBlackPawnA2 bPawnA2.file (bPawnA2.rank + (-1 : Int)) = some none ∧
        get_piece posBlackPawnA2 bPawnA2.file (bPawnA2.rank + 2 * (-1 : Int)) = some none)) :=
  pawn_pseudo_moves_characterization posBlackPawnA2 bPawnA2 (-1) (by decide)
    [(0, 0), (0, -1)] (by decide)

theorem pyGet_some_lt {α : Type _} {l : List α} {i : Int} (h0 : 0 ≤ i) {a : α}
    (h : pyGet l i = some a) : i < l.length := by
  rw [pyGet_nonneg l i h0] at h
  have hlt := List.get?_eq_some.mp h
  obtain ⟨hlt, _⟩ := hlt
  omega

theorem pyGet_none_of_ge {α : Type _} {l : List α} {i : Int} (h0 : 0 ≤ i)
    (h : (l.length : Int) ≤ i) : pyGet l i = none := by
  rw [pyGet_nonneg l i h0]
  exact List.get?_eq_none.mpr (by omega)

/-- A fold in the `Option` monad dies when the list contains an element on
which the step always raises. -/
theorem foldlM_bad {α β : Type _} (step : β → α → Option β) (bad : α)
    (hbad : ∀ acc, step acc bad = none) :
    ∀ (l : List α), bad ∈ l → ∀ acc, l.foldlM step acc = none
  | [], hmem => absurd hmem (List.not_mem_nil bad)
  | a :: l, hmem => by
    intro acc
    simp only [List.foldlM_cons, Option.bind_eq_bind]
    rcases List.mem_cons.mp hmem with h | h
    · rw [← h, hbad acc]
      rfl
    · cases hstep : step acc a with
      | none => rfl
      | some acc' =>
        simp only [Option.some_bind]
        exact foldlM_bad step bad hbad l h acc'

theorem loadStep_bad (c : Char) (hslash : ¬c = '/') (hdig : c.isDigit = false)
    (hcls : fen_to_class c.toLower = none) :
    ∀ st, loadStep st c = none := by
  intro ⟨b, f, r, n⟩
  unfold loadStep
  dsimp only
  rw [if_neg hslash, if_neg (by rw [hdig]; simp)]
  simp only [Option.bind_eq_bind]
  rw [hcls]
  rfl

theorem load_fen_bad_char (b : Board) (s : String) (c : Char) (hmem : c ∈ s.data)
    (hslash : ¬c = '/') (hdig : c.isDigit = false)
    (hcls : fen_to_class c.toLower = none) : load_fen b s = none := by
  unfold load_fen
  rw [foldlM_bad loadStep c (loadStep_bad c hslash hdig hcls) s.data hmem (b, 0, 7, 0)]
  rfl

theorem pyGet_mem {α : Type _} {l : List α} {i : Int} {a : α}
    (h : pyGet l i = some a) : a ∈ l := by
  unfold pyGet at h
  by_cases h0 : 0 ≤ i
  · rw [if_pos h0] at h
    exact List.get?_mem h
  · rw [if_neg h0] at h
    by_cases h1 : 0 ≤ i + l.length
    · rw [if_pos h1] at h
      exact List.get?_mem h
    · rw [if_neg h1] at h
      cases h

/-- Writing at a file beyond the h-file raises: `row[f] = v` with `f >= 8`
on an 8-wide row is an out-of-range assignment (`IndexError`). -/
theorem set_piece_none_of_file_ge (b : Board) (f r : Int) (v : Option Piece)
    (hb : WF8 b) (hf : (8 : Int) ≤ f) : set_piece b f r v = none := by
  unfold set_piece
  cases hrow : pyGet b.grid r with
  | none => rfl
  | some row =>
    simp only [Option.bind_eq_bind, Option.some_bind]
    have hlen : row.length = 8 := hb.2 row (pyGet_mem hrow)
    have hset : pySet row f v = none := by
      unfold pySet
      have h0 : (0 : Int) ≤ f := by omega
      have hnc : ¬(f < (row.length : Int)) := by omega
      rw [if_pos h0, if_neg hnc]
    rw [hset]
    rfl

/-- C4 (amended): the loader's actual failure behaviour.  A FEN with fewer
than six whitespace-separated fields raises (`IndexError`, modelled `none`),
as does an unrecognized piece letter in the placement field (`KeyError` from
`fen_to_class`), as does a rank that places a piece character at file >= 8
(out-of-range `set_piece`, proved generally and shown at the classic 9-pawn
placement).  But a rank that over-sums using digits alone (no piece lands
out of range) is accepted, a rank summing to fewer than 8 files is accepted
silently, and a position with no kings loads with
`white_king = black_king = None` and the game still entering the active
state — there are no `MalformedEncoding`/`MissingKing` errors. -/
theorem parse_fen_failure_modes :
    (∀ fen : String, (pySplit fen).length < 6 → parse_fen fen = none) ∧
    (∀ (fen : String) (placement : String), pyGet (pySplit fen) 0 = some placement →
      (∃ c ∈ placement.data, ¬c = '/' ∧ c.isDigit = false ∧ fen_to_class c.toLower = none) →
      parse_fen fen = none) ∧
    (∀ (b : Board) (f r : Int) (n : Nat) (c : Char), WF8 b → ¬c = '/' →
      c.isDigit = false → (8 : Int) ≤ f → loadStep (b, f, r, n) c = none) ∧
    parse_fen "ppppppppp/8/8/8/8/8/8/8 w - - 0 1" = none ∧
    (parse_fen "9/8/8/8/8/8/8/8 w - - 0 1").isSome = true ∧
    (parse_fen "p8/8/8/8/8/8/8/8 w - - 0 1").isSome = true ∧
    (parse_fen "8/8/8/8/8/8/8/7 w - - 0 1").map
      (fun bd => (bd.whiteKing, bd.blackKing, bd.gameActive)) = some (none, none, true) := by
  refine ⟨?_, ?_, ?_, by decide, by decide, by decide, by decide⟩
  · intro fen hlen
    unfold parse_fen
    simp only [Option.bind_eq_bind]
    cases h0 : pyGet (pySplit fen) 0 with
    | none => rfl
    | some placement =>
      simp only [Option.bind_eq_bind, Option.some_bind]
      cases h1 : load_fen emptyBoard placement with
      | none => rfl
      | some b1 =>
        simp only [Option.some_bind]
        cases h2 : pyGet (pySplit fen) 1 with
        | none => rfl
        | some colourField =>
          simp only [Option.some_bind]
          cases h3 : pyGet (pySplit fen) 2 with
          | none => rfl
          | some cr =>
            simp only [Option.some_bind]
            cases h4 : pyGet (pySplit fen) 3 with
            | none => rfl
            | some ep =>
              simp only [Option.some_bind]
              cases h5 : pyGet (pySplit fen) 4 with
              | none => rfl
              | some hmField =>
                simp only [Option.some_bind]
                cases h6 : pyInt hmField with
                | none => rfl
                | some hm =>
                  simp only [Option.some_bind]
                  have hlt : (4 : Int) < (pySplit fen).length :=
                    pyGet_some_lt (by omega) h5
                  have h7 : pyGet (pySplit fen) 5 = none :=
                    pyGet_none_of_ge (by omega) (by omega)
                  rw [h7]
                  rfl
  · intro fen placement h0 hbad
    obtain ⟨c, hcmem, hslash, hdig, hcls⟩ := hbad
    unfold parse_fen
    simp only [Option.bind_eq_bind]
    rw [h0]
    simp only [Option.bind_eq_bind, Option.some_bind]
    rw [load_fen_bad_char emptyBoard placement c hcmem hslash hdig hcls]
    rfl
  · intro b f r n c hb hslash hdig hf
    unfold loadStep
    dsimp only
    rw [if_neg hslash, if_neg (by rw [hdig]; simp)]
    simp only [Option.bind_eq_bind]
    cases hcls : fen_to_class c.toLower with
    | none => rfl
    | some pt =>
      simp only [Option.some_bind]
      rw [set_piece_none_of_file_ge b f r _ hb hf]
      rfl

/-- C4 witness: a one-field encoding fails to load. -/
theorem parse_fen_failure_modes_witness : parse_fen "w" = none :=
  parse_fen_failure_modes.1 "w" (by decide)

/-- C4 counterexample: an encoding whose first rank sums to 7 files and
which contains no king of either colour is accepted by the loader — no
`MalformedEncoding` or `MissingKing` failure occurs, the king references are
left as Python `None` and the game still enters the active state.  Ranks
summing to MORE than 8 files are also accepted whenever no piece character
lands at file >= 8: both the digit-only over-sum `9/...` and the
piece-then-digit over-sum `p8/...` load. -/
theorem parse_fen_accepts_malformed_counterexample :
    (parse_fen "8/8/8/8/8/8/8/7 w - - 0 1").isSome = true ∧
    (parse_fen "8/8/8/8/8/8/8/7 w - - 0 1").map
      (fun bd => (bd.whiteKing, bd.blackKing, bd.gameActive)) = some (none, none, true) ∧
    (parse_fen "9/8/8/8/8/8/8/8 w - - 0 1").isSome = true ∧
    (parse_fen "p8/8/8/8/8/8/8/8 w - - 0 1").isSome = true := by
  decide

/-- C8 counterexample: with `game_active = false`, `move_piece` still moves
the pawn (origin emptied, destination filled) and `update_game_state` still
flips the active colour and increments the halfmove clock: the engine never
consults the flag. -/
theorem terminal_state_not_absorbing_counterexample :
    posPawnClockOver.gameActive = false ∧
    get_piece posPawnClockOver 0 2 = some none ∧
    (move_piece posPawnClockOver hmPawnW (0, 2)).map (fun t => get_piece t.1 0 2) =
      some (some (some (movedTo hmPawnW (0, 2)))) ∧
    (move_piece posPawnClockOver hmPawnW (0, 2)).map (fun t => get_piece t.1 0 1) =
      some (some none) ∧
    posPawnClockOver.activeColour = Colour.White ∧
    (update_game_state posPawnClockOver).map Board.activeColour = some Colour.Black ∧
    (update_game_state posPawnClockOver).map Board.halfmoveClock = some 6 := by decide

/-- C8 (amended): the engine operations do not consult `game_active`.  On any
well-formed position already in the terminal state, `move_piece` still
relocates the piece (emptying the origin and overwriting the destination),
`promote_pawn` still places the new piece, and `update_game_state` still
flips the active colour and increments the halfmove clock; the freeze is
enforced only by the presentation layer's `on_click` guard. -/
theorem engine_ops_ignore_game_active (b : Board) (p : Piece) (m : Int × Int)
    (hga : b.gameActive = false)
    (hb : WF8 b) (hsq : SqOk (p.file, p.rank)) (hm : SqOk m)
    (hne : m ≠ (p.file, p.rank))
    (hocc : get_piece b p.file p.rank = some (some p)) :
    (∃ b1 cap, move_piece b p m = some (b1, cap, movedTo p m) ∧
      get_piece b1 p.file p.rank = some none ∧
      get_piece b1 m.1 m.2 = some (some (movedTo p m))) ∧
    (∀ np sq, SqOk sq → ∃ b3 np', promote_pawn b p np sq = some (b3, np') ∧
      np' = movedTo np sq ∧ get_piece b3 sq.1 sq.2 = some (some (movedTo np sq))) ∧
    (∀ b2, update_game_state b = some b2 →
      b2.activeColour = (if b.activeColour = Colour.Black then Colour.White else Colour.Black) ∧
      b2.halfmoveClock = b.halfmoveClock + 1) := by
  refine ⟨?_, ?_, ?_⟩
  · obtain ⟨b1, cap, hmv, hcap, hb1, _, _, _, _, _, _, _, _, hcell⟩ :=
      move_piece_spec b p m hb hsq hm
    refine ⟨b1, cap, hmv, ?_, ?_⟩
    · rw [hcell p.file p.rank hsq, if_pos ⟨rfl, rfl⟩]
    · have hnc : ¬(m.1 = p.file ∧ m.2 = p.rank) := by
        intro ⟨h1, h2⟩
        exact hne (Prod.ext_iff.mpr ⟨h1, h2⟩)
      rw [hcell m.1 m.2 hm, if_neg hnc, if_pos ⟨rfl, rfl⟩]
  · intro np sq hsqn
    obtain ⟨bA, hsetA, hbA, _, _, _, _, _, _, _, _, _, _⟩ :=
      set_piece_spec b p.file p.rank none hb hsq
    obtain ⟨bB, hsetB, hbB, _, _, _, _, _, _, _, _, hgetB, _⟩ :=
      set_piece_spec bA sq.1 sq.2 (some (movedTo np sq)) hbA hsqn
    refine ⟨sync_kings bB (movedTo np sq), movedTo np sq, ?_, rfl, ?_⟩
    · unfold movedTo at hsetB
      unfold promote_pawn
      rw [hsetA]
      simp only [Option.bind_eq_bind, Option.some_bind]
      rw [hsetB]
      rfl
    · rw [get_piece_sync]
      exact hgetB
  · intro b2 h2
    obtain ⟨hac, hhm, _⟩ := update_game_state_effect h2
    exact ⟨hac, hhm⟩

/-- C8 witness: the terminal pawn-clock position. -/
theorem engine_ops_ignore_game_active_witness :
    (∃ b1 cap, move_piece posPawnClockOver hmPawnW (0, 2) =
        some (b1, cap, movedTo hmPawnW (0, 2)) ∧
      get_piece b1 hmPawnW.file hmPawnW.rank = some none ∧
      get_piece b1 (0 : Int) (2 : Int) = some (some (movedTo hmPawnW (0, 2)))) ∧
    (∀ np sq, SqOk sq → ∃ b3 np', promote_pawn posPawnClockOver hmPawnW np sq =
        some (b3, np') ∧
      np' = movedTo np sq ∧ get_piece b3 sq.1 sq.2 = some (some (movedTo np sq))) ∧
    (∀ b2, update_game_state posPawnClockOver = some b2 →
      b2.activeColour =
        (if posPawnClockOver.activeColour = Colour.Black then Colour.White
          else Colour.Black) ∧
      b2.halfmoveClock = posPawnClockOver.halfmoveClock + 1) :=
  engine_ops_ignore_game_active posPawnClockOver hmPawnW (0, 2) (by decide) (by decide)
    (by decide) (by decide) (by decide) (by decide)
